import Mathlib

set_option maxRecDepth 8192

/-!
Verification development for the go_tts_app repository (a text-to-speech
pipeline written in Go).  Strings of the Go program are modelled as lists of
Unicode scalar values (`List Char`); byte strings as `List Nat`.  All
definitions are shallow embeddings of the functions in `src/`, translated
clause by clause; the file then settles the claims of the specification
against those embeddings.
-/

/-- Shorthand: the character list of a Lean string literal. -/
def gS (s : String) : List Char := s.data

/-- Character lists standing for Go strings. -/
abbrev Str := List Char

/-- Byte-level comparison used throughout: `a ≤ c` on scalar values. -/
def charLe (a b : Char) : Bool := Nat.ble a.toNat b.toNat

/-- Go `regexp` class `\s`, which is ASCII-only: `[\t\n\f\r ]`. -/
def goIsRegexSpace (c : Char) : Bool :=
  c == ' ' || c == '\t' || c == '\n' || c == Char.ofNat 12 || c == '\r'

/-- Go `unicode.IsSpace`: Latin-1 spaces plus the Unicode `White_Space`
code points (the published table of the Go standard library). -/
def goIsUnicodeSpace (c : Char) : Bool :=
  let n := c.toNat
  n == 9 || n == 10 || n == 11 || n == 12 || n == 13 || n == 32 ||
  n == 0x85 || n == 0xA0 || n == 0x1680 ||
  (Nat.ble 0x2000 n && Nat.ble n 0x200A) ||
  n == 0x2028 || n == 0x2029 || n == 0x202F || n == 0x205F || n == 0x3000

/-- Go `unicode.Is(unicode.Scripts["Han"], r)` restricted to the Han blocks
that occur in this repository (CJK Unified Ideographs, Extension A, and the
compatibility block); the rarer supplementary-plane extensions are omitted,
and none of the texts considered below uses them. -/
def isHan (c : Char) : Bool :=
  let n := c.toNat
  (Nat.ble 0x4E00 n && Nat.ble n 0x9FFF) ||
  (Nat.ble 0x3400 n && Nat.ble n 0x4DBF) ||
  (Nat.ble 0xF900 n && Nat.ble n 0xFAD9)

/-- Go `unicode.IsLetter` restricted to the scripts exercised by this
repository (ASCII, Latin-1, Han, kana, Hangul); exotic alphabets are not
used by any input considered below. -/
def goIsLetter (c : Char) : Bool :=
  let n := c.toNat
  (Nat.ble 65 n && Nat.ble n 90) || (Nat.ble 97 n && Nat.ble n 122) ||
  (Nat.ble 0xC0 n && Nat.ble n 0xD6) || (Nat.ble 0xD8 n && Nat.ble n 0xF6) ||
  (Nat.ble 0xF8 n && Nat.ble n 0xFF) ||
  (Nat.ble 0x3041 n && Nat.ble n 0x3096) ||
  (Nat.ble 0x30A1 n && Nat.ble n 0x30FA) ||
  (Nat.ble 0xAC00 n && Nat.ble n 0xD7A3) || isHan c

/-- Go `unicode.IsDigit` restricted to ASCII digits (no other decimal digit
characters occur in the texts considered below). -/
def goIsDigit (c : Char) : Bool := Nat.ble 48 c.toNat && Nat.ble c.toNat 57

/-- Go `strings.TrimSpace`. -/
def goTrimSpace (s : Str) : Str :=
  ((s.dropWhile goIsUnicodeSpace).reverse.dropWhile goIsUnicodeSpace).reverse

/-- Go `strings.HasPrefix`. -/
def strHasPre (s pre : Str) : Bool := pre.isPrefixOf s

/-- Go `strings.HasSuffix`. -/
def strHasSuf (s suf : Str) : Bool := suf.isSuffixOf s

/-- Go `strings.Contains` for a one-character substring. -/
def containsChar (s : Str) (c : Char) : Bool := s.contains c

/-- Go `strings.Contains`. -/
def containsSub (sub : Str) : Str → Bool
  | [] => sub.isEmpty
  | c :: t => sub.isPrefixOf (c :: t) || containsSub sub t

/-- Go `strings.Count` for a one-character substring. -/
def countChar (s : Str) (c : Char) : Nat := (s.filter (fun x => x == c)).length

/-- Go `strings.ReplaceAll` (non-overlapping, leftmost first), with fuel;
all call sites use a non-empty pattern. -/
def replaceAllLitAux (pat repl : Str) : Nat → Str → Str
  | 0, s => s
  | fuel + 1, s =>
    if pat ≠ [] ∧ pat.isPrefixOf s then
      repl ++ replaceAllLitAux pat repl fuel (s.drop pat.length)
    else
      match s with
      | [] => []
      | c :: t => c :: replaceAllLitAux pat repl fuel t

/-- Go `strings.ReplaceAll`. -/
def replaceAllLit (pat repl s : Str) : Str := replaceAllLitAux pat repl (s.length + 1) s

/-- Go `strings.TrimSuffix`. -/
def trimSuffixStr (s suf : Str) : Str :=
  if suf.isSuffixOf s then s.take (s.length - suf.length) else s

/-- Go `strings.ToLower`, restricted to ASCII (the only letters reaching the
call sites below). -/
def toLowerAscii (s : Str) : Str :=
  s.map (fun c => if Nat.ble 65 c.toNat && Nat.ble c.toNat 90 then Char.ofNat (c.toNat + 32) else c)

/-- Go `strings.Split(s, "\n")`. -/
def splitOnNl (s : Str) : List Str := s.splitOn '\n'

/-- Go `strings.Join(xs, "\n")`. -/
def joinNl (xs : List Str) : Str := List.intercalate ['\n'] xs

/-!
A small backtracking regular-expression engine.  Go's `regexp` package uses
leftmost-first (Perl-style) match semantics, which a backtracking search
reproduces exactly: alternation prefers its left branch, greedy repetition
prefers to consume, lazy repetition prefers not to.  Anchors: `bos`/`eos`
are `^`/`$` without the `m` flag (start/end of the whole text), and
`bolM`/`eolM` are the `(?m)` line-anchored forms.  `grp` marks the capture
group referenced as `$1` by the replacement templates of the Go source.
-/

inductive RE where
  | eps : RE
  | cls : Bool → List (Char × Char) → RE
  | seq : RE → RE → RE
  | alt : RE → RE → RE
  | star : Bool → RE → RE
  | grp : RE → RE
  | bos : RE
  | eos : RE
  | bolM : RE
  | eolM : RE

/-- Membership of a character in a list of closed ranges. -/
def clsMem (rs : List (Char × Char)) (c : Char) : Bool :=
  rs.any (fun p => charLe p.1 c && charLe c p.2)

/-- Matcher state: absolute position, remaining input, previous character
(for line anchors), and the group-1 capture if recorded. -/
structure MSt where
  pos : Nat
  rem : Str
  prev : Option Char
  g1 : Option (Nat × Nat)

/-- The backtracking matcher, in continuation style.  The fuel only bounds
the recursion and is chosen far above any reachable depth; repetition is
required to make progress, as in Go's engine. -/
def mrun : Nat → RE → MSt → (MSt → Option MSt) → Option MSt
  | 0, _, _, _ => none
  | fuel + 1, e, st, k =>
    match e with
    | .eps => k st
    | .bos => if st.pos == 0 then k st else none
    | .eos => if st.rem.isEmpty then k st else none
    | .bolM => if st.pos == 0 || st.prev == some '\n' then k st else none
    | .eolM =>
      match st.rem with
      | [] => k st
      | c :: _ => if c == '\n' then k st else none
    | .cls neg rs =>
      match st.rem with
      | [] => none
      | c :: rest =>
        let inside := clsMem rs c
        if (if neg then !inside else inside) then
          k { pos := st.pos + 1, rem := rest, prev := some c, g1 := st.g1 }
        else none
    | .seq a b => mrun fuel a st (fun st2 => mrun fuel b st2 k)
    | .alt a b =>
      match mrun fuel a st k with
      | some r => some r
      | none => mrun fuel b st k
    | .grp e2 =>
      mrun fuel e2 st (fun st2 => k { st2 with g1 := some (st.pos, st2.pos) })
    | .star greedy e2 =>
      if greedy then
        match mrun fuel e2 st
            (fun st2 => if st.pos < st2.pos then mrun fuel (.star greedy e2) st2 k else none) with
        | some r => some r
        | none => k st
      else
        match k st with
        | some r => some r
        | none =>
          mrun fuel e2 st
            (fun st2 => if st.pos < st2.pos then mrun fuel (.star greedy e2) st2 k else none)

/-- Fuel for the matcher; far above the depth reachable on the inputs of
this development. -/
def engineFuel : Nat := 100000

/-- Try to match `e` at the given state; on success return the end state. -/
def tryMatch (e : RE) (st : MSt) : Option MSt := mrun engineFuel e st (fun st2 => some st2)

/-- Extract the absolute range `[a, b)` from the full input. -/
def extractRange (full : Str) (se : Nat × Nat) : Str := (full.drop se.1).take (se.2 - se.1)

/-- `ReplaceAllStringFunc`-style scan: walks positions left to right,
replaces every non-overlapping leftmost match by `f match group1`, and
copies non-matching characters.  Empty matches emit their replacement and
advance one character, as Go does. -/
def scanRepl (full : Str) (e : RE) (f : Str → Option Str → Str) :
    Nat → Nat → Str → Option Char → Str
  | 0, _, rem, _ => rem
  | fuel + 1, pos, rem, prev =>
    match tryMatch e { pos := pos, rem := rem, prev := prev, g1 := none } with
    | none =>
      match rem with
      | [] => []
      | c :: t => c :: scanRepl full e f fuel (pos + 1) t (some c)
    | some stEnd =>
      let mlen := stEnd.pos - pos
      let matched := rem.take mlen
      let repl := f matched (stEnd.g1.map (extractRange full))
      if mlen == 0 then
        match rem with
        | [] => repl
        | c :: t => repl ++ c :: scanRepl full e f fuel (pos + 1) t (some c)
      else
        repl ++ scanRepl full e f fuel stEnd.pos (rem.drop mlen) matched.getLast?

/-- Go `re.ReplaceAllStringFunc(s, f)` (`f` also receives group 1). -/
def reReplaceF (e : RE) (f : Str → Option Str → Str) (s : Str) : Str :=
  scanRepl s e f (s.length + 1) 0 s none

/-- Go `re.ReplaceAllString(s, repl)` for a literal replacement. -/
def reReplace (e : RE) (repl : Str) (s : Str) : Str := reReplaceF e (fun _ _ => repl) s

/-- Go `re.ReplaceAllString(s, "$1")`. -/
def reReplaceG1 (e : RE) (s : Str) : Str := reReplaceF e (fun _ g => g.getD []) s

/-- Existence scan for Go `re.MatchString` / `regexp.MatchString`. -/
def scanExists (e : RE) : Nat → Nat → Str → Option Char → Bool
  | 0, _, _, _ => false
  | fuel + 1, pos, rem, prev =>
    match tryMatch e { pos := pos, rem := rem, prev := prev, g1 := none } with
    | some _ => true
    | none =>
      match rem with
      | [] => false
      | c :: t => scanExists e fuel (pos + 1) t (some c)

/-- Go `re.MatchString`. -/
def reMatches (e : RE) (s : Str) : Bool := scanExists e (s.length + 1) 0 s none

/-- A single literal character. -/
def RE.lit (c : Char) : RE := .cls false [(c, c)]

/-- A character set given by a list of characters. -/
def RE.chs (cs : List Char) : RE := .cls false (cs.map fun c => (c, c))

/-- A literal string. -/
def RE.str (s : Str) : RE := s.foldr (fun c acc => .seq (.lit c) acc) .eps

/-- `.` without the `s` flag: any character but newline. -/
def RE.dot : RE := .cls true [('\n', '\n')]

/-- `.` under `(?s)`: any character. -/
def RE.dotAll : RE := .cls true []

/-- `e+` (greedy when the flag is true). -/
def RE.plus (g : Bool) (e : RE) : RE := .seq e (.star g e)

/-- `e?` (greedy: prefers the present branch). -/
def RE.opt (e : RE) : RE := .alt e .eps

/-- The ranges of Go's `\s` (ASCII-only). -/
def spaceRanges : List (Char × Char) :=
  [('\t', '\n'), (Char.ofNat 12, '\r'), (' ', ' ')]

/-- `\s` as a regex. -/
def reSpace : RE := .cls false spaceRanges

/-- `\d` as a regex. -/
def reDigit : RE := .cls false [('0', '9')]

/-- `\w` as a regex: `[0-9A-Za-z_]`. -/
def reWord : RE := .cls false [('0', '9'), ('A', 'Z'), ('_', '_'), ('a', 'z')]


/-- Concatenation of a regex list. -/
def reCat (es : List RE) : RE := es.foldr RE.seq RE.eps

/-- The opening-brace character (written numerically; it is text, not code). -/
def obr : Char := Char.ofNat 123

/-- The closing-brace character. -/
def cbr : Char := Char.ofNat 125

/-- The backtick character. -/
def btk : Char := Char.ofNat 96

/-- `[a-zA-Z0-9]`. -/
def alnumCls : RE := .cls false [('0', '9'), ('A', 'Z'), ('a', 'z')]

/-- `[a-zA-Z]`. -/
def alphaCls : RE := .cls false [('A', 'Z'), ('a', 'z')]

/-!  TextProcessor (src/service/text_processor.go): the regexes of each
transformation pass, transcribed one to one. -/

/-- Go regex (removeCodeBlocks): triple-backtick fenced blocks with optional
language tag, dot-matches-newline, lazy body. -/
def reFenceTicks : RE :=
  reCat [RE.str (gS ("```")), .star true alnumCls, .star true reSpace, RE.lit '\n',
    .star false RE.dotAll, RE.lit '\n', RE.str (gS ("```")), .star true reSpace]

/-- Go regex (removeCodeBlocks): triple-tilde fenced blocks. -/
def reFenceTildes : RE :=
  reCat [RE.str (gS ("~~~")), .star true alnumCls, .star true reSpace, RE.lit '\n',
    .star false RE.dotAll, RE.lit '\n', RE.str (gS ("~~~")), .star true reSpace]

/-- Go regex (removeCodeBlocks): a line indented by four spaces, multiline
anchors. -/
def reIndentedCode : RE :=
  reCat [.bolM, RE.str (gS ("    ")), .star true RE.dot, .eolM]

/-- TextProcessor.removeCodeBlocks. -/
def removeCodeBlocks (text : Str) : Str :=
  let text := reReplace reFenceTicks (gS ("\n")) text
  let text := reReplace reFenceTildes (gS ("\n")) text
  reReplace reIndentedCode [] text

/-- TextProcessor.isTableRow. -/
def isTableRowB (line : Str) : Bool :=
  if !containsChar line '|' then false
  else if strHasPre (goTrimSpace line) (gS ("```")) || strHasPre (goTrimSpace line) (gS ("~~~")) then
    false
  else Nat.ble 2 (countChar line '|')

/-- Go regex (isTableSeparator): the full-line table-separator shape, applied
to the line with spaces removed. -/
def reTableSep : RE :=
  reCat [.bos, RE.opt (RE.lit '|'),
    RE.plus true (reCat [RE.opt (RE.lit ':'), RE.plus true (RE.lit '-'), RE.opt (RE.lit ':'), RE.lit '|']),
    RE.opt (RE.lit ':'), RE.plus true (RE.lit '-'), RE.opt (RE.lit ':'), RE.opt (RE.lit '|'), .eos]

/-- TextProcessor.isTableSeparator. -/
def isTableSeparatorB (line : Str) : Bool :=
  if !containsChar line '|' || !containsChar line '-' then false
  else reMatches reTableSep (replaceAllLit (gS (" ")) [] line)

/-- TextProcessor.removeTables: the stateful line scan (`inTable` flag). -/
def removeTablesAux : Bool → List Str → List Str
  | _, [] => []
  | inTable, line :: rest =>
    let t := goTrimSpace line
    if containsChar t '|' && isTableRowB t then removeTablesAux true rest
    else if isTableSeparatorB t then removeTablesAux true rest
    else
      let inTable2 := if inTable && !containsChar t '|' then false else inTable
      if inTable2 then removeTablesAux inTable2 rest
      else line :: removeTablesAux inTable2 rest

/-- TextProcessor.removeTables. -/
def removeTables (text : Str) : Str := joinNl (removeTablesAux false (splitOnNl text))

/-- Go regex (removeImages): Markdown image syntax (the alt-text group is
replaced by nothing, so it is left uncaptured here). -/
def reImageMd : RE :=
  reCat [RE.lit '!', RE.lit '[', .star true (.cls true [(']', ']')]), RE.lit ']',
    RE.lit '(', RE.plus true (.cls true [(')', ')')]), RE.lit ')']

/-- Go regex (removeImages): case-insensitive HTML `img` tag. -/
def reImageHtml : RE :=
  reCat [RE.lit '<', RE.chs [Char.ofNat 105, 'I'], RE.chs [Char.ofNat 109, 'M'],
    RE.chs [Char.ofNat 103, 'G'], .star true (.cls true [('>', '>')]), RE.lit '>']

/-- TextProcessor.removeImages. -/
def removeImages (text : Str) : Str :=
  reReplace reImageHtml [] (reReplace reImageMd [] text)

/-- Go regex (processLinks): Markdown links, keeping the link text. -/
def reLinkMd : RE :=
  reCat [RE.lit '[', .grp (RE.plus true (.cls true [(']', ']')])), RE.lit ']',
    RE.lit '(', RE.plus true (.cls true [(')', ')')]), RE.lit ')']

/-- `[^\s]` under Go's ASCII-only `\s`. -/
def nonSpaceCls : RE := .cls true spaceRanges

/-- Go regex (processLinks): bare URLs (`http`, `https`, `ftp`, `www.`). -/
def reBareUrl : RE :=
  .alt (.alt (reCat [RE.str (gS ("http")), RE.opt (RE.lit 's'), RE.str (gS ("://")), RE.plus true nonSpaceCls])
             (reCat [RE.str (gS ("ftp://")), RE.plus true nonSpaceCls]))
       (reCat [RE.str (gS ("www.")), RE.plus true nonSpaceCls])

/-- `[a-zA-Z0-9._%+-]`. -/
def emailLocalCls : RE :=
  .cls false [('0', '9'), ('A', 'Z'), ('a', 'z'), ('.', '.'), ('_', '_'), ('%', '%'), ('+', '+'), ('-', '-')]

/-- `[a-zA-Z0-9.-]`. -/
def emailDomainCls : RE :=
  .cls false [('0', '9'), ('A', 'Z'), ('a', 'z'), ('.', '.'), ('-', '-')]

/-- Go regex (processLinks): e-mail addresses. -/
def reEmail : RE :=
  reCat [RE.plus true emailLocalCls, RE.lit '@', RE.plus true emailDomainCls,
    RE.lit '.', alphaCls, alphaCls, .star true alphaCls]

/-- TextProcessor.processLinks. -/
def processLinks (text : Str) : Str :=
  let text := reReplaceG1 reLinkMd text
  let text := reReplace reBareUrl [] text
  reReplace reEmail [] text

/-- Go regex (removeHTMLTags): any HTML tag. -/
def reHtmlTag : RE := reCat [RE.lit '<', .star true (.cls true [('>', '>')]), RE.lit '>']

/-- Go regex (removeHTMLTags): HTML entities. -/
def reHtmlEntity : RE :=
  reCat [RE.lit '&', RE.plus true (.cls false [('0', '9'), ('A', 'Z'), ('a', 'z'), ('#', '#')]), RE.lit ';']

/-- The entity table of removeHTMLTags; unknown entities become empty. -/
def entityRepl (ent : Str) : Str :=
  if ent = gS ("&amp;") then gS ("&")
  else if ent = gS ("&lt;") then gS ("<")
  else if ent = gS ("&gt;") then gS (">")
  else if ent = gS ("&quot;") then gS ("\"")
  else if ent = gS ("&apos;") then gS ("\x27")
  else if ent = gS ("&nbsp;") then gS (" ")
  else if ent = gS ("&copy;") then gS ("版权")
  else if ent = gS ("&reg;") then gS ("注册商标")
  else if ent = gS ("&trade;") then gS ("商标")
  else []

/-- TextProcessor.removeHTMLTags. -/
def removeHTMLTags (text : Str) : Str :=
  let text := reReplace reHtmlTag [] text
  reReplaceF reHtmlEntity (fun m _ => entityRepl m) text

/-- Go regex (removeOtherMarkdownElements): horizontal rules. -/
def reHr : RE :=
  let c : RE := RE.chs ['-', '*', '_']
  reCat [.bolM, c, c, c, .star true c, .star true reSpace, .eolM]

/-- Go regex: blockquote markers. -/
def reBlockquote : RE := reCat [.bolM, RE.lit '>', .star true reSpace]

/-- Go regex: task-list markers (`[x\s]` is the class of `x` and spaces). -/
def reTaskList : RE :=
  reCat [.bolM, RE.chs ['-', '*', '+'], .star true reSpace, RE.lit '[',
    .cls false (('x', 'x') :: spaceRanges), RE.lit ']', .star true reSpace]

/-- Go regex: unordered-list markers. -/
def reListMark : RE := reCat [.bolM, RE.chs ['-', '*', '+'], RE.plus true reSpace]

/-- Go regex: ordered-list markers. -/
def reOrderedList : RE := reCat [.bolM, RE.plus true reDigit, RE.lit '.', RE.plus true reSpace]

/-- Go regex: paired strikethrough. -/
def reStrike : RE :=
  reCat [RE.str (gS ("~~")), .grp (RE.plus true (.cls true [('~', '~')])), RE.str (gS ("~~"))]

/-- Go regex: paired double-underscore emphasis. -/
def reUnder2 : RE :=
  reCat [RE.str (gS ("__")), .grp (RE.plus true (.cls true [('_', '_')])), RE.str (gS ("__"))]

/-- Go regex: single-underscore emphasis `_([^_\s][^_]*[^_\s])_` (the body
needs at least two characters). -/
def reUnder1 : RE :=
  reCat [RE.lit '_',
    .grp (reCat [.cls true (('_', '_') :: spaceRanges), .star true (.cls true [('_', '_')]),
      .cls true (('_', '_') :: spaceRanges)]),
    RE.lit '_']

/-- TextProcessor.removeOtherMarkdownElements. -/
def removeOtherMarkdownElements (text : Str) : Str :=
  let text := reReplace reHr [] text
  let text := reReplace reBlockquote [] text
  let text := reReplace reTaskList [] text
  let text := reReplace reListMark [] text
  let text := reReplace reOrderedList [] text
  let text := reReplaceG1 reStrike text
  let text := reReplace (RE.str (gS ("~~"))) [] text
  let text := reReplaceG1 reUnder2 text
  let text := reReplace (RE.str (gS ("__"))) [] text
  reReplaceG1 reUnder1 text

/-- TextProcessor.removeNonSpeechElements. -/
def removeNonSpeechElements (text : Str) : Str :=
  let text := removeCodeBlocks text
  let text := removeTables text
  let text := removeImages text
  let text := processLinks text
  let text := removeHTMLTags text
  removeOtherMarkdownElements text

/-- The escape table of processEscapeCharacters, in the order it is written
in the source.  (Go iterates this map in unspecified order; the inputs
settled below contain no backslashes, so the order cannot matter for them.) -/
def escapeTable : List (Str × Str) :=
  [(gS ("\\*"), gS ("*")), (gS ("\\\\"), gS ("\\")), (gS ("\\n"), gS (" ")),
   (gS ("\\t"), gS (" ")), (gS ("\\r"), []), (gS ("\\\""), gS ("\"")),
   (gS ("\\\x27"), gS ("\x27")), (gS ("\\&"), gS ("&")), (gS ("\\#"), gS ("#")),
   (gS ("\\%"), gS ("%")), (gS ("\\$"), gS ("$")), (gS ("\\@"), gS ("@")),
   (gS ("\\!"), gS ("!")), (gS ("\\?"), gS ("?")), (gS ("\\+"), gS ("+")),
   (gS ("\\="), gS ("=")), (gS ("\\-"), gS ("-")), (gS ("\\_"), gS ("_")),
   (gS ("\\^"), gS ("^")), (gS ("\\~"), gS ("~")), (gS ("\\|"), gS ("|")),
   (gS ("\\>"), gS (">")), (gS ("\\<"), gS ("<")), (gS ("\\\x7b"), gS ("\x7b")),
   (gS ("\\\x7d"), gS ("\x7d")), (gS ("\\["), gS ("[")), (gS ("\\]"), gS ("]")),
   (gS ("\\("), gS ("(")), (gS ("\\)"), gS (")"))]

/-- TextProcessor.processEscapeCharacters. -/
def processEscapeCharacters (text : Str) : Str :=
  escapeTable.foldl (fun t p => replaceAllLit p.1 p.2 t) text

/-- Go regex (processMarkdownFormatting): paired bold markers, lazy body. -/
def reBold : RE :=
  reCat [RE.str (gS ("**")), .grp (RE.plus false (.cls true [('*', '*'), ('\n', '\n')])),
    RE.str (gS ("**"))]

/-- Go regex: paired italic markers, lazy body. -/
def reItalic : RE :=
  reCat [RE.lit '*', .grp (RE.plus false (.cls true [('*', '*'), ('\n', '\n')])), RE.lit '*']

/-- Go regex: paired inline-code markers. -/
def reInlineCode : RE :=
  reCat [RE.lit btk, .grp (RE.plus true (.cls true [(btk, btk)])), RE.lit btk]

/-- Go regex: heading markers, multiline anchors. -/
def reHeader : RE :=
  reCat [.bolM, RE.plus true (RE.lit '#'), .star true reSpace, .grp (RE.plus true RE.dot), .eolM]

/-- TextProcessor.processMarkdownFormatting. -/
def processMarkdownFormatting (text : Str) : Str :=
  let text := reReplaceG1 reBold text
  let text := reReplace (RE.str (gS ("**"))) [] text
  let text := reReplaceG1 reItalic text
  let text := reReplace (RE.lit '*') [] text
  let text := reReplaceG1 reInlineCode text
  let text := reReplace (RE.lit btk) [] text
  let text := reReplaceG1 reHeader text
  reReplaceG1 reLinkMd text

/-- The emoji ranges of the main removal regex of processRemoveEmojis. -/
def emojiMainRanges : List (Nat × Nat) :=
  [(0x1F600, 0x1F64F), (0x1F300, 0x1F5FF), (0x1F680, 0x1F6FF), (0x1F1E0, 0x1F1FF),
   (0x2600, 0x26FF), (0x2700, 0x27BF), (0x1F900, 0x1F9FF), (0x1F018, 0x1F270),
   (0x238C, 0x2454), (0x20D0, 0x20FF), (0xFE0F, 0xFE0F)]

/-- The ranges of the `moreEmojis` removal regex. -/
def emojiMoreRanges : List (Nat × Nat) :=
  [(0x1F170, 0x1F251), (0x1F004, 0x1F004), (0x1F0CF, 0x1F0CF), (0x1F18E, 0x1F18E),
   (0x3030, 0x3030), (0x303D, 0x303D), (0x3297, 0x3297), (0x3299, 0x3299),
   (0x1F201, 0x1F202), (0x1F21A, 0x1F21A), (0x1F22F, 0x1F22F), (0x1F232, 0x1F236),
   (0x1F238, 0x1F23A), (0x1F250, 0x1F251)]

/-- Membership in a list of scalar-value ranges. -/
def inNatRanges (rs : List (Nat × Nat)) (c : Char) : Bool :=
  rs.any (fun p => Nat.ble p.1 c.toNat && Nat.ble c.toNat p.2)

/-- TextProcessor.processRemoveEmojis.  Each Go regex here is an alternation
of single-character classes replaced by the empty string, which is exactly a
character filter; the five passes are kept separate as in the source. -/
def processRemoveEmojis (text : Str) : Str :=
  let text := text.filter (fun c => !inNatRanges emojiMainRanges c)
  let text := text.filter (fun c => !inNatRanges [(0xFE00, 0xFE0F)] c)
  let text := text.filter (fun c => !(c.toNat == 0x200D))
  let text := text.filter (fun c => !inNatRanges emojiMoreRanges c)
  text.filter (fun c => !inNatRanges [(0x1F3FB, 0x1F3FF)] c)

/-- The special-context patterns of isInSpecialContext (matched against the
whole current text). -/
def specialContextRes : List RE :=
  [reCat [RE.plus true reWord, RE.lit '@', RE.plus true reWord, RE.lit '.', RE.plus true reWord],
   reCat [RE.str (gS ("http")), RE.opt (RE.lit 's'), RE.str (gS ("://")), RE.plus true nonSpaceCls],
   reCat [RE.lit '$', RE.plus true reDigit],
   reCat [RE.plus true reDigit, RE.lit '%'],
   reCat [RE.plus true reDigit, RE.lit '.', RE.plus true reDigit],
   reCat [RE.lit '#', .cls false [('A', 'Z'), ('_', '_'), ('a', 'z')], .star true reWord],
   reCat [RE.plus true (RE.lit '*'), .star true (.cls true [('*', '*')]), RE.plus true (RE.lit '*')],
   reCat [RE.lit '+', RE.plus true reDigit, .star true (reCat [RE.lit '-', RE.plus true reDigit])],
   reCat [RE.plus true alnumCls, RE.lit '.', RE.plus true alnumCls]]

/-- TextProcessor.isInSpecialContext: true iff any pattern matches anywhere
in the text (the symbol and match arguments are unused in the source). -/
def isInSpecialContext (text : Str) : Bool := specialContextRes.any (fun e => reMatches e text)

/-- The symbol table of processSpecialSymbols, in source order.  (Go iterates
this map in unspecified order; the inputs settled below contain at most one
distinct symbol, so the order cannot matter for them.) -/
def symbolTable : List (Char × Str) :=
  [('@', gS ("at")), ('#', []), ('$', gS ("美元")), ('%', gS ("百分号")),
   ('^', []), ('&', []), ('*', []), ('+', gS ("加")), ('=', gS ("等于")),
   ('|', []), ('~', []), (btk, []), ('<', gS ("小于")), ('>', gS ("大于")),
   ('[', gS ("左方括号")), (']', gS ("右方括号")), (obr, gS ("左大括号")), (cbr, gS ("右大括号"))]

/-- The per-symbol pattern `(\s|^)sym(\s|$)`. -/
def symRe (c : Char) : RE :=
  reCat [.alt reSpace .bos, RE.lit c, .alt reSpace .eos]

/-- Go `strings.Replace(m, sym, repl, 1)` for a one-character pattern. -/
def replaceFirstChar (c : Char) (repl : Str) : Str → Str
  | [] => []
  | x :: t => if x == c then repl ++ t else x :: replaceFirstChar c repl t

/-- TextProcessor.processSpecialSymbols: emoji removal, then the lone-symbol
replacement loop.  The context guard reads the whole text of the current
pass, so it is constant during one symbol's scan. -/
def processSpecialSymbols (text : Str) : Str :=
  let text := processRemoveEmojis text
  symbolTable.foldl
    (fun t p =>
      reReplaceF (symRe p.1)
        (fun m _ => if isInSpecialContext t then m else replaceFirstChar p.1 p.2 m) t)
    text

/-- TextProcessor.normalizeWhitespaceText. -/
def normalizeWhitespaceText (text : Str) : Str :=
  goTrimSpace (reReplace (RE.plus true reSpace) (gS (" ")) text)

/-- TextProcessor.isChinese. -/
def isChinese (c : Char) : Bool := isHan c

/-- TextProcessor.isEnglish. -/
def isEnglish (c : Char) : Bool :=
  (Nat.ble 97 c.toNat && Nat.ble c.toNat 122) || (Nat.ble 65 c.toNat && Nat.ble c.toNat 90)

/-- TextProcessor.processMixedLanguageText: insert a space at each boundary
between a Han character and a Latin letter.  (The source also tests that the
builder is non-empty, which holds whenever a previous rune exists.) -/
def mixedAux : Option Char → Str → Str
  | _, [] => []
  | prev, c :: rest =>
    let need :=
      match prev with
      | none => false
      | some p =>
        ((isChinese p && isEnglish c) || (isEnglish p && isChinese c)) && !goIsUnicodeSpace p
    (if need then [' ', c] else [c]) ++ mixedAux (some c) rest

/-- TextProcessor.processMixedLanguageText. -/
def processMixedLanguageText (text : Str) : Str := mixedAux none text

/-- TextProcessor.processBrackets: every bracket-pattern match is replaced by
itself (`return match`), so the function is the identity on its input. -/
def processBrackets (text : Str) : Str := text

/-- TextProcessor.ProcessText, with the constructor defaults
(`preserveMarkdown`, `normalizeWhitespace`, `handleSpecialSymbols` all true). -/
def ProcessText (text : Str) : Str :=
  if text.isEmpty then text
  else
    let text := removeNonSpeechElements text
    let text := processEscapeCharacters text
    let text := processMarkdownFormatting text
    let text := processSpecialSymbols text
    let text := normalizeWhitespaceText text
    let text := processMixedLanguageText text
    processBrackets text


/-!  TextProcessor.IsValidTextForTTS and its helper predicates. -/

/-- The emoji ranges of startsWithEmoji, in source order. -/
def emojiStartRanges : List (Nat × Nat) :=
  [(0x1F600, 0x1F64F), (0x1F300, 0x1F5FF), (0x1F680, 0x1F6FF), (0x1F1E0, 0x1F1FF),
   (0x2600, 0x26FF), (0x2700, 0x27BF), (0x1F900, 0x1F9FF), (0x1F018, 0x1F270),
   (0x238C, 0x2454), (0x1F170, 0x1F251), (0x1F004, 0x1F0CF), (0x1F18E, 0x1F18E),
   (0x3030, 0x303D), (0x3297, 0x3299), (0x1F201, 0x1F202), (0x1F21A, 0x1F22F),
   (0x1F232, 0x1F236), (0x1F238, 0x1F23A), (0x1F250, 0x1F251), (0x1F3FB, 0x1F3FF),
   (0xFE0F, 0xFE0F), (0x200D, 0x200D)]

/-- TextProcessor.startsWithEmoji. -/
def startsWithEmoji (text0 : Str) : Bool :=
  match goTrimSpace text0 with
  | [] => false
  | c :: _ => inNatRanges emojiStartRanges c

/-- Anchor a regex at the start of the text. -/
def anch (e : RE) : RE := .seq .bos e

/-- The Han ranges used for `\p{Han}` classes (same blocks as `isHan`). -/
def hanRangesC : List (Char × Char) :=
  [(Char.ofNat 0x4E00, Char.ofNat 0x9FFF), (Char.ofNat 0x3400, Char.ofNat 0x4DBF),
   (Char.ofNat 0xF900, Char.ofNat 0xFAD9)]

/-- The code-pattern regexes of isCodeBlock, in source order. -/
def codePatternRes : List RE :=
  [reCat [.bos, RE.str (gS ("func")), RE.plus true reSpace, RE.plus true reWord,
     .star true reSpace, RE.lit '('],
   reCat [.bos, RE.str (gS ("package")), RE.plus true reSpace, RE.plus true reWord],
   reCat [.bos, RE.str (gS ("import")), RE.plus true reSpace],
   reCat [.bos, RE.str (gS ("class")), RE.plus true reSpace, RE.plus true reWord],
   reCat [.bos, RE.str (gS ("def")), RE.plus true reSpace, RE.plus true reWord,
     .star true reSpace, RE.lit '('],
   reCat [.bos, RE.str (gS ("if")), .star true reSpace, RE.lit '(', .star true RE.dot,
     RE.lit ')', .star true reSpace, RE.lit obr],
   reCat [.bos, RE.str (gS ("for")), .star true reSpace, RE.lit '(', .star true RE.dot,
     RE.lit ')', .star true reSpace, RE.lit obr],
   reCat [.bos, RE.str (gS ("for")), RE.plus true reSpace, RE.plus true reWord,
     .star true reSpace, RE.str (gS (":=")), .star true RE.dot, RE.lit obr],
   reCat [.bos, RE.str (gS ("while")), .star true reSpace, RE.lit '(', .star true RE.dot,
     RE.lit ')', .star true reSpace, RE.lit obr],
   reCat [.bos, .star true reSpace, RE.lit obr],
   reCat [.bos, .star true reSpace, RE.lit cbr],
   reCat [.bos, .star true reSpace, RE.str (gS ("return")), .star true reSpace,
     RE.opt (RE.lit ';'), .star true reSpace, .eos],
   reCat [.bos, .star true reSpace, RE.str (gS ("return")), RE.plus true reSpace,
     .cls true [('a', 'z'), ('A', 'Z'), ('中', '中'), ('文', '文')]],
   RE.str (gS ("fmt.Print")),
   RE.str (gS ("console.log")),
   RE.str (gS ("System.out.print"))]

/-- TextProcessor.isCodeBlock. -/
def isCodeBlock (text0 : Str) : Bool :=
  let text := goTrimSpace text0
  if strHasPre text (gS ("```")) || strHasSuf text (gS ("```")) then true
  else if strHasPre text (gS ("~~~")) || strHasSuf text (gS ("~~~")) then true
  else if strHasPre text (gS ("    ")) && !(text.dropWhile (fun c => c == ' ')).isEmpty then true
  else codePatternRes.any (fun e => reMatches e text)

/-- TextProcessor.isImage. -/
def isImageB (text0 : Str) : Bool :=
  let text := goTrimSpace text0
  reMatches (anch (reCat [RE.lit '!', RE.lit '[', .star true (.cls true [(']', ']')]),
    RE.lit ']', RE.lit '(', RE.plus true (.cls true [(')', ')')]), RE.lit ')'])) text ||
  reMatches (anch reImageHtml) text

/-- The anchored patterns of isPureURL, in source order. -/
def pureUrlRes : List RE :=
  [reCat [.bos, RE.str (gS ("http")), RE.opt (RE.lit 's'), RE.str (gS ("://")),
     RE.plus true nonSpaceCls, .eos],
   reCat [.bos, RE.str (gS ("ftp://")), RE.plus true nonSpaceCls, .eos],
   reCat [.bos, RE.str (gS ("www.")), RE.plus true nonSpaceCls, .eos],
   reCat [.bos, RE.plus true emailLocalCls, RE.lit '@', RE.plus true emailDomainCls,
     RE.lit '.', alphaCls, alphaCls, .star true alphaCls, .eos]]

/-- TextProcessor.isPureURL. -/
def isPureURLB (text0 : Str) : Bool :=
  let text := goTrimSpace text0
  pureUrlRes.any (fun e => reMatches e text)

/-- The markup patterns of isPureMarkupLine, in source order.  In the
table-separator pattern the Go backtick string contains `\\s` inside a
character class, which denotes a literal backslash and the letter `s`. -/
def pureMarkupRes : List RE :=
  [reCat [.bos, RE.plus true (RE.lit '#'), .star true reSpace, .eos],
   reCat [.bos, RE.plus true (RE.lit '*'), .star true reSpace, .eos],
   reCat [.bos, RE.plus true (RE.lit '-'), .star true reSpace, .eos],
   reCat [.bos, RE.plus true (RE.lit '='), .star true reSpace, .eos],
   reCat [.bos, RE.plus true (RE.lit '_'), .star true reSpace, .eos],
   reCat [.bos, RE.plus true (RE.lit '#'),
     .star true (.cls true (('a', 'z') :: ('A', 'Z') :: hanRangesC)), .eos],
   reCat [.bos, RE.lit '*', RE.lit '*', RE.lit '*', .star true (RE.lit '*'),
     .star true (.cls true (('a', 'z') :: ('A', 'Z') :: hanRangesC)), .eos],
   reCat [.bos, RE.lit '-', RE.lit '-', RE.lit '-', .star true (RE.lit '-'),
     .star true (.cls true (('a', 'z') :: ('A', 'Z') :: hanRangesC)), .eos],
   reCat [.bos, RE.str (gS ("##")), .star true RE.dot, .eos],
   reCat [.bos, RE.str (gS ("**")), RE.lit '(', .star true RE.dot, .eos],
   reCat [.bos, RE.str (gS ("---")), .star true RE.dot, .eos],
   reCat [.bos, RE.str (gS ("-----")), .star true RE.dot, .eos],
   reCat [.bos, RE.lit '|',
     RE.plus true (.cls false [('-', '-'), (':', ':'), ('|', '|'), ('\\', '\\'), ('s', 's')]),
     RE.lit '|', .eos],
   reCat [.bos, RE.lit '>', .star true reSpace, .eos],
   reCat [.bos, RE.chs ['-', '*', '+'], .star true reSpace, .eos],
   reCat [.bos, RE.plus true reDigit, RE.lit '.', .star true reSpace, .eos],
   reCat [.bos, RE.chs ['-', '*', '+'], .star true reSpace, RE.lit '[',
     .cls false (('x', 'x') :: spaceRanges), RE.lit ']', .star true reSpace, .eos],
   reCat [.bos, .star true reSpace, RE.lit btk, RE.lit btk, RE.lit btk, .star true reSpace, .eos],
   reCat [.bos, .star true reSpace, RE.lit '~', RE.lit '~', RE.lit '~', .star true reSpace, .eos],
   reCat [.bos, RE.str (gS ("<!--")), .star true RE.dot, RE.str (gS ("-->")), .eos],
   reCat [.bos, RE.lit '<', RE.plus true (.cls true [('>', '>')]), RE.lit '>',
     .star true reSpace, .eos]]

/-- TextProcessor.isPureMarkupLine. -/
def isPureMarkupLineB (text0 : Str) : Bool :=
  let text := goTrimSpace text0
  pureMarkupRes.any (fun e => reMatches e text)

/-- TextProcessor.IsValidTextForTTS. -/
def IsValidTextForTTS (text0 : Str) : Bool :=
  let text := goTrimSpace text0
  if text.isEmpty then false
  else if startsWithEmoji text then false
  else if isCodeBlock text then false
  else if isTableRowB text || isTableSeparatorB text then false
  else if isImageB text then false
  else if isPureURLB text then false
  else if isPureMarkupLineB text then false
  else if text.length < 2 then false
  else text.any (fun r => goIsLetter r || goIsDigit r || isChinese r)

/-!  Plain-mode fragment emission. -/

/-- A TTS task (`TTSTask` / `UnifiedTTSTask` in the source): a fragment
index and the text to synthesize. -/
structure TTSTask where
  Index : Nat
  Text : Str
deriving DecidableEq

/-- The quick markdown-marker filter of
ConcurrentAudioService.ProcessInputFileConcurrent (applied to the trimmed
line before the validity check). -/
def quickMarkdownFilter (t : Str) : Bool :=
  strHasPre t (gS ("## ")) || strHasPre t (gS ("### ")) || strHasPre t (gS ("#### ")) ||
  strHasPre t (gS ("** ")) || strHasPre t (gS ("| ")) ||
  t == gS ("##") || t == gS ("###") || t == gS ("####") ||
  t == gS ("**") || t == gS ("***") ||
  strHasPre t (gS ("-- ")) || strHasPre t (gS ("-----"))

/-- The task-building loop of
ConcurrentAudioService.ProcessInputFileConcurrent (plain mode), carrying the
original line index `i`. -/
def concurrentPlainTasksFrom : Nat → List Str → List TTSTask
  | _, [] => []
  | i, line :: rest =>
    let t := goTrimSpace line
    if t.isEmpty then concurrentPlainTasksFrom (i + 1) rest
    else if (replaceAllLit (gS ("\t")) [] (replaceAllLit (gS (" ")) [] t)).isEmpty then
      concurrentPlainTasksFrom (i + 1) rest
    else if quickMarkdownFilter t then concurrentPlainTasksFrom (i + 1) rest
    else if !IsValidTextForTTS line then concurrentPlainTasksFrom (i + 1) rest
    else
      let p := ProcessText line
      if p.isEmpty then concurrentPlainTasksFrom (i + 1) rest
      else ⟨i, p⟩ :: concurrentPlainTasksFrom (i + 1) rest

/-- ConcurrentAudioService.ProcessInputFileConcurrent, task-building stage. -/
def concurrentPlainTasks (lines : List Str) : List TTSTask :=
  concurrentPlainTasksFrom 0 lines

/-- UnifiedTTSService.filterValidLines: keeps the original line whenever its
trimmed form is non-blank and valid. -/
def filterValidLines : List Str → List Str
  | [] => []
  | line :: rest =>
    let t := goTrimSpace line
    if t.isEmpty then filterValidLines rest
    else if (replaceAllLit (gS ("\t")) [] (replaceAllLit (gS (" ")) [] t)).isEmpty then
      filterValidLines rest
    else if !IsValidTextForTTS t then filterValidLines rest
    else line :: filterValidLines rest

/-- UnifiedTTSService.processFile (plain mode), task-building stage: the
fragments are numbered by their ordinal among the surviving lines. -/
def unifiedPlainTasks (lines : List Str) : List TTSTask :=
  (filterValidLines lines).enum.map (fun p => ⟨p.1, p.2⟩)

/-- The survival predicate of the concurrent plain path (the five checks of
the loop, in order). -/
def concurrentLineSurvives (line : Str) : Bool :=
  let t := goTrimSpace line
  !t.isEmpty &&
  !(replaceAllLit (gS ("\t")) [] (replaceAllLit (gS (" ")) [] t)).isEmpty &&
  !quickMarkdownFilter t &&
  IsValidTextForTTS line &&
  !(ProcessText line).isEmpty


/-!  Audio files and validators.  A file system is a partial map from paths
to byte contents; `none` is a missing file (`os.Stat` error).  Since sizes
are at least 1024 whenever a header is inspected, the short reads of the
source always return the full 10- or 12-byte buffer, modelled by `take`. -/

/-- Byte strings. -/
abbrev Bytes := List Nat

/-- A pure file system: path contents by path. -/
abbrev GoFS := Str → Option Bytes

/-- `filepath.Ext`: the suffix starting at the final dot of the final
path element, empty when there is none. -/
def filepathExtAux : Str → Str → Str
  | _, [] => []
  | acc, c :: t => if c == '/' then [] else if c == '.' then '.' :: acc else filepathExtAux (c :: acc) t

/-- Go `filepath.Ext`. -/
def goFilepathExt (path : Str) : Str := filepathExtAux [] path.reverse

/-- The bytes of `"ID3"`. -/
def id3Bytes : Bytes := [0x49, 0x44, 0x33]

/-- UnifiedTTSService.validateAudioFile (also the validator of the Edge and
Tencent providers): existence, size at least 1024, and an MP3 header (an ID3
tag or a frame-sync byte pair). -/
def unifiedValidateAudioFile (file : Option Bytes) : Bool :=
  match file with
  | none => false
  | some bs =>
    if bs.length < 1024 then false
    else
      let buffer := bs.take 10
      let n := buffer.length
      if n < 3 then false
      else
        Nat.ble 3 n &&
          ((buffer.take 3 == id3Bytes) ||
           (buffer.headD 0 == 0xFF && ((buffer.getD 1 0) &&& 0xF0 == 0xF0)))

/-- AudioMergeOnlyService.validateSingleAudioFile: existence, size at least
1024, a readable 12-byte header, then the per-extension header rule. -/
def validateSingleAudioFile (path : Str) (file : Option Bytes) : Bool :=
  match file with
  | none => false
  | some bs =>
    if bs.length < 1024 then false
    else
      let buffer := bs.take 12
      let n := buffer.length
      if n < 4 then false
      else
        let ext := toLowerAscii (goFilepathExt path)
        if ext == gS (".mp3") then
          Nat.ble 3 n &&
            ((buffer.take 3 == id3Bytes) ||
             (buffer.headD 0 == 0xFF && ((buffer.getD 1 0) &&& 0xF0 == 0xF0)))
        else if ext == gS (".wav") then
          Nat.ble 12 n && (buffer.take 4 == [0x52, 0x49, 0x46, 0x46]) &&
            ((buffer.drop 8).take 4 == [0x57, 0x41, 0x56, 0x45])
        else if ext == gS (".m4a") || ext == gS (".aac") then Nat.ble 8 n
        else if ext == gS (".flac") then Nat.ble 4 n && (buffer.take 4 == [0x66, 0x4C, 0x61, 0x43])
        else if ext == gS (".ogg") then Nat.ble 4 n && (buffer.take 4 == [0x4F, 0x67, 0x67, 0x53])
        else true

/-- ConcurrentAudioService.validateAudioFile: the same size gate, then a
switch on the configured codec that checks headers for `mp3` and `wav` only;
every other codec passes on size alone. -/
def concurrentValidateAudioFile (codec : Str) (file : Option Bytes) : Bool :=
  match file with
  | none => false
  | some bs =>
    if bs.length < 1024 then false
    else
      let buffer := bs.take 12
      let n := buffer.length
      if n < 4 then false
      else
        let c := toLowerAscii codec
        if c == gS ("mp3") then
          Nat.ble 3 n &&
            ((buffer.take 3 == id3Bytes) ||
             (buffer.headD 0 == 0xFF && ((buffer.getD 1 0) &&& 0xF0 == 0xF0)))
        else if c == gS ("wav") then
          Nat.ble 12 n && (buffer.take 4 == [0x52, 0x49, 0x46, 0x46]) &&
            ((buffer.drop 8).take 4 == [0x57, 0x41, 0x56, 0x45])
        else true

/-- Merge failure modes (messages in the source are strings; only their
identity matters here). -/
inductive MergeErr where
  | noInput : MergeErr
  | noValid : MergeErr
  | noneFound : MergeErr
deriving DecidableEq

/-- UnifiedTTSService.mergeAudioFiles: reject an empty list, validate each
file (invalid ones are deleted and skipped), reject when none is valid,
else concatenate the valid files in list order.  A validated file exists in
the pure file system, so the open step cannot fail. -/
def unifiedMergeAudioFiles (fs : GoFS) (audioFiles : List Str) : Except MergeErr Bytes :=
  if audioFiles.isEmpty then .error .noInput
  else
    let valid := audioFiles.filter (fun f => unifiedValidateAudioFile (fs f))
    if valid.isEmpty then .error .noValid
    else .ok (valid.map (fun f => (fs f).getD [])).flatten

/-- AudioMergeOnlyService.MergeAudioFiles: reject an empty list, then copy
each input, skipping (with a warning only) the missing and the invalid; the
function returns success regardless of how many inputs were skipped. -/
def mergeOnlyMergeAudioFiles (fs : GoFS) (audioFiles : List Str) : Except MergeErr Bytes :=
  if audioFiles.isEmpty then .error .noInput
  else
    .ok ((audioFiles.filter
            (fun f => (fs f).isSome && validateSingleAudioFile f (fs f))).map
          (fun f => (fs f).getD [])).flatten

/-- ConcurrentAudioService.createFileList: one `file '<path>'` line per file. -/
def renderFileList (files : List Str) : Str :=
  (files.map (fun f => gS ("file \x27") ++ f ++ gS ("\x27\n"))).flatten

/-- ConcurrentAudioService.simpleAudioMerge, parsing stage: trims each line,
skips blanks, and takes the characters between the quotes of well-formed
`file '...'` lines. -/
def parseFileListLines : List Str → List Str
  | [] => []
  | l :: rest =>
    let t := goTrimSpace l
    if t.isEmpty then parseFileListLines rest
    else if strHasPre t (gS ("file \x27")) && strHasSuf t (gS ("\x27")) then
      ((t.drop 6).take (t.length - 7)) :: parseFileListLines rest
    else parseFileListLines rest

/-- ConcurrentAudioService.simpleAudioMerge, parsing stage on the whole list
file. -/
def parseFileList (content : Str) : List Str := parseFileListLines (splitOnNl content)

/-- ConcurrentAudioService.mergeAudioFiles followed by simpleAudioMerge:
validate (deleting invalid files), reject when none is valid, render and
re-parse the manifest, then concatenate, skipping files that fail to open. -/
def concurrentMergeAudioFiles (codec : Str) (fs : GoFS) (audioFiles : List Str) :
    Except MergeErr Bytes :=
  let valid := audioFiles.filter (fun f => concurrentValidateAudioFile codec (fs f))
  if valid.isEmpty then .error .noValid
  else
    let parsed := parseFileList (renderFileList valid)
    if parsed.isEmpty then .error .noneFound
    else .ok ((parsed.filter (fun f => (fs f).isSome)).map (fun f => (fs f).getD [])).flatten

/-- A synthesis result (`UnifiedTTSResult` / `TTSResult` in the source): the
fragment index, the audio path, and whether the worker reported an error
(in which case the source leaves the path empty). -/
structure TTSResult where
  Index : Nat
  AudioFile : Str
  isErr : Bool
deriving DecidableEq

/-- The post-collection sort of the pipelines (`sort.Slice` by ascending
`Index`).  `sort.Slice` is not stable, but the pipelines below are only
invoked with pairwise-distinct indices, for which every correct sort yields
this unique order. -/
def sortByIndex (rs : List TTSResult) : List TTSResult :=
  List.insertionSort (fun a b => a.Index ≤ b.Index) rs

/-- UnifiedTTSService.processFile, collection-to-merge stage: the collector
keeps every result (failures included, with empty paths); the list is
rejected if empty, sorted by index, projected to paths, and merged. -/
def unifiedCollectAndMerge (fs : GoFS) (results : List TTSResult) : Except MergeErr Bytes :=
  if results.isEmpty then .error .noInput
  else unifiedMergeAudioFiles fs ((sortByIndex results).map (fun r => r.AudioFile))

/-- ConcurrentAudioService.ProcessInputFileConcurrent, collection-to-merge
stage: the collector keeps only error-free results; the list is rejected if
empty, sorted by index, projected to paths, and merged through the manifest. -/
def concurrentCollectAndMerge (codec : Str) (fs : GoFS) (results : List TTSResult) :
    Except MergeErr Bytes :=
  let collected := results.filter (fun r => !r.isErr)
  if collected.isEmpty then .error .noInput
  else concurrentMergeAudioFiles codec fs ((sortByIndex collected).map (fun r => r.AudioFile))

/-!  The cloud-task polling loops. -/

/-- `model.TTSStatusResponse`: the fields read by the polling loops
(`ErrMessage` models the `Error` field). -/
structure TTSStatusResponse where
  Success : Bool
  Status : Int
  AudioURL : Str
  ErrorMsg : Str
  ErrMessage : Str
deriving DecidableEq

/-- Polling failure modes. -/
inductive WaitErr where
  | transport : Str → WaitErr
  | query : Str → WaitErr
  | emptyURL : WaitErr
  | taskFailed : Str → WaitErr
  | unknownStatus : Int → WaitErr
  | timeout : WaitErr
deriving DecidableEq

/-- TencentTTSProvider.waitForTaskAndDownload (the cloud-task backend of the
unified pipeline): polls with a 2 s sleep after each pending answer, while
the elapsed time is below 60 s.  `resp k` is the answer to the k-th poll
(`Except.error` for a transport failure of the status query).  Polls are
modelled as instantaneous, so the k-th poll happens at elapsed time `2k`
seconds and the loop admits at most 30 polls; the returned number is the
total seconds slept.  On status 2 the source proceeds to download the URL;
the loop is cut at that point and the URL returned. -/
def tencentWaitAux (resp : Nat → Except Str TTSStatusResponse) :
    Nat → Nat → Except WaitErr Str × Nat
  | 0, _ => (.error .timeout, 0)
  | fuel + 1, k =>
    match resp k with
    | .error e => (.error (.transport e), 0)
    | .ok st =>
      if !st.Success then (.error (.query st.ErrMessage), 0)
      else if st.Status == 2 then
        if st.AudioURL.isEmpty then (.error .emptyURL, 0) else (.ok st.AudioURL, 0)
      else if st.Status == 3 then (.error (.taskFailed st.ErrorMsg), 0)
      else if st.Status == 0 || st.Status == 1 then
        let r := tencentWaitAux resp fuel (k + 1)
        (r.1, r.2 + 2)
      else (.error (.unknownStatus st.Status), 0)

/-- TencentTTSProvider.waitForTaskAndDownload. -/
def tencentWaitForTask (resp : Nat → Except Str TTSStatusResponse) : Except WaitErr Str × Nat :=
  tencentWaitAux resp 30 0

/-- ConcurrentAudioService.waitForTTSCompletion (the polling loop used by
the `tts` command): at most 30 polls with a 6 s sleep after each
non-terminal answer; status 2 is success (URL required), status -1 is
failure, and every other status, 3 included, keeps polling. -/
def concurrentWaitAux (resp : Nat → Except Str TTSStatusResponse) :
    Nat → Nat → Except WaitErr Str × Nat
  | 0, _ => (.error .timeout, 0)
  | fuel + 1, k =>
    match resp k with
    | .error e => (.error (.transport e), 0)
    | .ok st =>
      if !st.Success then (.error (.query st.ErrMessage), 0)
      else if st.Status == 2 then
        if st.AudioURL.isEmpty then (.error .emptyURL, 0) else (.ok st.AudioURL, 0)
      else if st.Status == -1 then (.error (.taskFailed st.ErrorMsg), 0)
      else
        let r := concurrentWaitAux resp fuel (k + 1)
        (r.1, r.2 + 6)

/-- ConcurrentAudioService.waitForTTSCompletion. -/
def concurrentWaitForTask (resp : Nat → Except Str TTSStatusResponse) : Except WaitErr Str × Nat :=
  concurrentWaitAux resp 30 0

/-!  The per-fragment retry loops. -/

/-- One observable event of a retry loop: a synthesize call for a given
attempt number, or a sleep of the given number of seconds. -/
inductive RetryEv where
  | call : Nat → RetryEv
  | slept : Nat → RetryEv
deriving DecidableEq

/-- The retry loop shared (up to the backoff base) by
UnifiedTTSService.generateAudioWithRetry (base 1 s, also the loop of the
Edge service) and ConcurrentAudioService.generateAudioWithRetry /
TTSService.generateAudioWithRetry (base 2 s).  `gen a` is the outcome of the
a-th synthesize attempt.  Returns the result (the final error carries
`maxRetries` and the last error, as the formatted message does) and the
trace of calls and sleeps. -/
def retryLoopAux (gen : Nat → Except Str Str) (base maxRetries : Nat) :
    Nat → Nat → Option Str → Except (Nat × Option Str) Str × List RetryEv
  | 0, _, lastErr => (.error (maxRetries, lastErr), [])
  | fuel + 1, attempt, _ =>
    match gen attempt with
    | .ok path => (.ok path, [.call attempt])
    | .error e =>
      if attempt < maxRetries then
        let r := retryLoopAux gen base maxRetries fuel (attempt + 1) (some e)
        (r.1, .call attempt :: .slept (attempt * base) :: r.2)
      else (.error (maxRetries, some e), [.call attempt])

/-- UnifiedTTSService.generateAudioWithRetry: backoff `attempt * 1` second. -/
def unifiedGenerateAudioWithRetry (gen : Nat → Except Str Str) (maxRetries : Nat) :
    Except (Nat × Option Str) Str × List RetryEv :=
  retryLoopAux gen 1 maxRetries maxRetries 1 none

/-- ConcurrentAudioService.generateAudioWithRetry: backoff
`attempt * 2` seconds. -/
def concurrentGenerateAudioWithRetry (gen : Nat → Except Str Str) (maxRetries : Nat) :
    Except (Nat × Option Str) Str × List RetryEv :=
  retryLoopAux gen 2 maxRetries maxRetries 1 none

/-- The first attempt in `[a, a + fuel)` on which `gen` succeeds. -/
def firstSuccessAux (gen : Nat → Except Str Str) : Nat → Nat → Option Nat
  | 0, _ => none
  | fuel + 1, k =>
    match gen k with
    | .ok _ => some k
    | .error _ => firstSuccessAux gen fuel (k + 1)

/-- The closed form of a retry trace from attempt `a` to final attempt
`stop`: calls interleaved with the backoff sleeps `j * base`. -/
def canonTraceFrom (base a stop : Nat) : List RetryEv :=
  (List.range' a (stop - a)).flatMap (fun j => [RetryEv.call j, RetryEv.slept (j * base)]) ++
    [RetryEv.call stop]

/-- The number of synthesize calls in a trace. -/
def callCount (tr : List RetryEv) : Nat :=
  (tr.filter (fun ev => match ev with | .call _ => true | _ => false)).length

/-!  The merge command (src/cmd/merge.go). -/

/-- Maximal runs of ASCII digits, left to right (`\d+` FindAllString). -/
def digitRunsAux : Str → Str → List Str
  | acc, [] => if acc.isEmpty then [] else [acc.reverse]
  | acc, c :: t =>
    if goIsDigit c then digitRunsAux (c :: acc) t
    else if acc.isEmpty then digitRunsAux [] t
    else acc.reverse :: digitRunsAux [] t

/-- All maximal digit runs of a string. -/
def digitRuns (s : Str) : List Str := digitRunsAux [] s

/-- Go `strconv.Atoi` on a digit-only string: fails (range error) above
`math.MaxInt64`. -/
def goAtoi (s : Str) : Option Nat :=
  let v := s.foldl (fun acc c => acc * 10 + (c.toNat - 48)) 0
  if v ≤ 9223372036854775807 then some v else none

/-- extractNumberFromFilename: strip the extension, find all digit runs,
keep the first of maximal length, convert (the sentinel 999999 both for
digitless names and for conversion failures). -/
def extractNumberFromFilename (filename : Str) : Nat :=
  let nameNoExt := trimSuffixStr filename (goFilepathExt filename)
  let runs := digitRuns nameNoExt
  if runs.isEmpty then 999999
  else
    let best := runs.foldl (fun b r => if Nat.blt b.length r.length then r else b) []
    let best2 := if best.isEmpty then runs.getLastD [] else best
    match goAtoi best2 with
    | some n => n
    | none => 999999

/-- `AudioFileInfo` of the merge command. -/
structure AudioFileInfo where
  Name : Str
  Number : Nat
deriving DecidableEq

/-- scanAudioFiles assembles the info record from the basename. -/
def mkAudioFileInfo (name : Str) : AudioFileInfo := ⟨name, extractNumberFromFilename name⟩

/-- Go byte-wise string comparison `a < b` (UTF-8 byte order equals scalar
order). -/
def strLtB : Str → Str → Bool
  | [], [] => false
  | [], _ :: _ => true
  | _ :: _, [] => false
  | a :: as, b :: bs =>
    if Nat.blt a.toNat b.toNat then true
    else if Nat.blt b.toNat a.toNat then false
    else strLtB as bs

/-- The comparator of sortAudioFilesByNumber: ascending number, ties broken
by the whole basename. -/
def audioLessB (x y : AudioFileInfo) : Bool :=
  if x.Number == y.Number then strLtB x.Name y.Name else Nat.blt x.Number y.Number

/-- sortAudioFilesByNumber (`sort.Slice` with `audioLessB`; as with the
pipeline sort, the order is the unique one consistent with the comparator
whenever no two records tie on both fields). -/
def sortAudioFilesByNumber (files : List AudioFileInfo) : List AudioFileInfo :=
  List.insertionSort (fun x y => audioLessB y x = false) files

/-!  The tts command flag logic (src/cmd/tts.go). -/

/-- Does the (lower-cased) extension mark a Markdown file? -/
def isMarkdownExt (f : Str) : Bool :=
  let ext := toLowerAscii (goFilepathExt f)
  ext == gS (".md") || ext == gS (".markdown")

/-- runTTS, smart-markdown resolution: the auto-detection runs only when the
`-i` flag supplied an input file; otherwise the flag value stands. -/
def runTTSSmartMarkdown (inputFlag : Option Str) (smartSet smartVal : Bool) : Bool :=
  match inputFlag with
  | none => smartVal
  | some f => if isMarkdownExt f && !smartSet then true else smartVal

/-- The input file the run will read: the flag overrides the configuration. -/
def effectiveInputFile (inputFlag : Option Str) (cfgInput : Str) : Str :=
  (inputFlag.getD cfgInput)

/-!  Length-limited submission (src/service/text_processor.go
SplitTextIntelligently, byte-oriented as in Go). -/

/-- Go `strings.LastIndex` (byte strings; call sites use non-empty needles). -/
def lastIndexAux (sub : Bytes) : Bytes → Nat → Int
  | [], _ => -1
  | c :: t, i =>
    let rest := lastIndexAux sub t (i + 1)
    if rest ≥ 0 then rest
    else if sub.isPrefixOf (c :: t) then (i : Int) else -1

/-- Go `strings.LastIndex`. -/
def goLastIndex (s sub : Bytes) : Int := lastIndexAux sub s 0

/-- The sentence-ending marks, in the order the source tries them. -/
def sentenceEndMarks : List Bytes :=
  [[0xE3, 0x80, 0x82], [0xEF, 0xBC, 0x81], [0xEF, 0xBC, 0x9F], [0x2E], [0x21], [0x3F]]

/-- The pause marks, in source order. -/
def pauseMarks : List Bytes := [[0xEF, 0xBC, 0x8C], [0xEF, 0xBC, 0x9B], [0x2C], [0x3B]]

/-- One pass of the mark loops: the last occurrence of the first mark kind
that appears at a byte index in `(0, maxLength-1)` of the window wins. -/
def tryMarkCut (text window : Bytes) (maxLength : Nat) : List Bytes → Option Bytes
  | [] => none
  | mark :: rest =>
    let pos := goLastIndex window mark
    if 0 < pos ∧ pos < (maxLength : Int) - 1 then some (text.take (pos.toNat + mark.length))
    else tryMarkCut text window maxLength rest

/-- TextProcessor.SplitTextIntelligently (byte semantics as in Go). -/
def SplitTextIntelligently (text : Bytes) (maxLength : Nat) : Bytes :=
  if text.length ≤ maxLength then text
  else
    let window := text.take maxLength
    match tryMarkCut text window maxLength sentenceEndMarks with
    | some r => r
    | none =>
      match tryMarkCut text window maxLength pauseMarks with
      | some r => r
      | none =>
        let pos := goLastIndex window [0x20]
        if 0 < pos then text.take pos.toNat else text.take maxLength

/-- UTF-8 encoding of one scalar value. -/
def utf8Bytes (c : Char) : Bytes :=
  let n := c.toNat
  if n < 0x80 then [n]
  else if n < 0x800 then [0xC0 + n / 64, 0x80 + n % 64]
  else if n < 0x10000 then [0xE0 + n / 4096, 0x80 + (n / 64) % 64, 0x80 + n % 64]
  else [0xF0 + n / 262144, 0x80 + (n / 4096) % 64, 0x80 + (n / 64) % 64, 0x80 + n % 64]

/-- UTF-8 encoding of a string (Go `len` and slicing act on these bytes). -/
def utf8Encode (s : Str) : Bytes := s.flatMap utf8Bytes

/-- UnifiedTTSService.ProcessText: normalize, then split when the provider
bound is positive and exceeded; the returned bytes are what the provider's
synthesize call receives. -/
def unifiedProcessTextForProvider (maxTextLength : Nat) (text : Str) : Bytes :=
  let p := utf8Encode (ProcessText text)
  if 0 < maxTextLength ∧ maxTextLength < p.length then SplitTextIntelligently p maxTextLength
  else p


/-!  Claim C3: idempotence of the normalization pipeline. -/

/-- Claim C3, counterexample: `ProcessText` is not idempotent.  On the
input `"< <"` the lone-symbol pass scans non-overlapping matches of the
pattern `(\s|^)<(\s|$)`, so the first `<` consumes the separating space and
the second `<` survives; the second application then replaces it too. -/
theorem C3_idempotence_counterexample :
    ProcessText (ProcessText (gS ("< <"))) ≠ ProcessText (gS ("< <")) := by decide

/-- Claim C3 (amended): the normalization pipeline is not idempotent; the
lone-symbol replacement can leave a symbol for the next pass.  Concretely,
one pass sends `"< <"` to `"小于 <"`, and a second pass sends that to
`"小于 小于"`. -/
theorem C3_normalize_second_pass_differs :
    ProcessText (gS ("< <")) = gS ("小于 <") ∧
    ProcessText (gS ("小于 <")) = gS ("小于 小于") := by
  exact ⟨by decide, by decide⟩

/-!  Claim C9: smart-markdown auto-detection of the tts command. -/

/-- Claim C9, counterexample: when the input file comes from the
configuration (no `-i` flag), a `.md` extension does not auto-enable
Markdown mode, contrary to the claim. -/
theorem C9_config_markdown_counterexample :
    runTTSSmartMarkdown none false false = false ∧
    isMarkdownExt (effectiveInputFile none (gS ("doc.md"))) = true := by
  exact ⟨rfl, by decide⟩

/-- Claim C9 (amended): Markdown mode is auto-enabled exactly when the input
file was supplied through the `-i` flag, its extension lower-cases to `.md`
or `.markdown`, and `--smart-markdown` was not set explicitly; in every
other case (including a Markdown input file named only in the
configuration) the explicit flag value stands. -/
theorem C9_smart_markdown_resolution :
    ∀ (inputFlag : Option Str) (smartSet smartVal : Bool),
      runTTSSmartMarkdown inputFlag smartSet smartVal =
        (smartVal ||
          (!smartSet && (match inputFlag with | none => false | some f => isMarkdownExt f))) := by
  intro inputFlag smartSet smartVal
  cases inputFlag with
  | none => cases smartVal <;> simp [runTTSSmartMarkdown]
  | some f =>
    cases h : isMarkdownExt f <;> cases smartSet <;> cases smartVal <;>
      simp [runTTSSmartMarkdown, h]

/-!  Claim C10: length-limited submission. -/

/-- A non-negative `strings.LastIndex` result marks an occurrence lying
inside the haystack: the index is at least the scan base and the needle
fits before the end. -/
theorem lastIndexAux_bound (sub : Bytes) (_hsub : sub ≠ []) :
    ∀ (s : Bytes) (i j : Nat), lastIndexAux sub s i = (j : Int) →
      i ≤ j ∧ j - i + sub.length ≤ s.length := by
  intro s
  induction s with
  | nil =>
    intro i j h
    simp [lastIndexAux] at h
  | cons c t ih =>
    intro i j h
    simp only [lastIndexAux] at h
    by_cases hr : lastIndexAux sub t (i + 1) ≥ 0
    · rw [if_pos hr] at h
      have := ih (i + 1) j h
      simp only [List.length_cons]
      omega
    · rw [if_neg hr] at h
      by_cases hp : sub.isPrefixOf (c :: t)
      · rw [if_pos hp] at h
        have hij : i = j := by exact_mod_cast h
        have hlen : sub.length ≤ (c :: t).length :=
          (List.isPrefixOf_iff_prefix.mp hp).length_le
        omega
      · rw [if_neg hp] at h
        simp at h

/-- Every successful mark cut is a `take` of at most `maxLength` bytes. -/
theorem tryMarkCut_take (text window : Bytes) (maxLength : Nat)
    (hw : window = text.take maxLength) :
    ∀ (marks : List Bytes), (∀ m ∈ marks, m ≠ []) →
      ∀ r, tryMarkCut text window maxLength marks = some r →
        ∃ k, k ≤ maxLength ∧ r = text.take k := by
  intro marks
  induction marks with
  | nil => intro _ r h; simp [tryMarkCut] at h
  | cons mark rest ih =>
    intro hne r h
    simp only [tryMarkCut] at h
    by_cases hc : 0 < goLastIndex window mark ∧ goLastIndex window mark < (maxLength : Int) - 1
    · rw [if_pos hc] at h
      obtain ⟨h1, _⟩ := hc
      have hnn : (0 : Int) ≤ goLastIndex window mark := le_of_lt h1
      have hj : goLastIndex window mark = ((goLastIndex window mark).toNat : Int) :=
        (Int.toNat_of_nonneg hnn).symm
      have hb := lastIndexAux_bound mark (hne mark (by simp)) window 0
        (goLastIndex window mark).toNat hj
      have hwin : window.length ≤ maxLength := by
        rw [hw]; simp [List.length_take]
      refine ⟨(goLastIndex window mark).toNat + mark.length, by omega, ?_⟩
      simp only [Option.some.injEq] at h
      exact h.symm
    · rw [if_neg hc] at h
      exact ih (fun m hm => hne m (by simp [hm])) r h

/-- `SplitTextIntelligently` always returns a byte-prefix of its input of
length at most `maxLength`. -/
theorem SplitTextIntelligently_take : ∀ (text : Bytes) (m : Nat),
    ∃ k, k ≤ m ∧ SplitTextIntelligently text m = text.take k := by
  intro text m
  by_cases hle : text.length ≤ m
  · exact ⟨text.length, hle, by simp [SplitTextIntelligently, hle]⟩
  · simp only [SplitTextIntelligently, if_neg hle]
    rcases hs : tryMarkCut text (text.take m) m sentenceEndMarks with _ | r
    · rcases hp : tryMarkCut text (text.take m) m pauseMarks with _ | r
      · by_cases hsp : 0 < goLastIndex (text.take m) [0x20]
        · have hnn : (0 : Int) ≤ goLastIndex (text.take m) [0x20] :=
            le_of_lt hsp
          have hj : goLastIndex (text.take m) [0x20] =
              (((goLastIndex (text.take m) [0x20]).toNat : Nat) : Int) :=
            (Int.toNat_of_nonneg hnn).symm
          have hb := lastIndexAux_bound [0x20] (by simp) (text.take m) 0
            (goLastIndex (text.take m) [0x20]).toNat hj
          have hwin : (text.take m).length ≤ m := by simp [List.length_take]
          refine ⟨(goLastIndex (text.take m) [0x20]).toNat, by simp at hb; omega, ?_⟩
          simp [hs, hp, hsp]
        · refine ⟨m, le_refl m, ?_⟩
          simp [hs, hp, hsp]
      · have := tryMarkCut_take text (text.take m) m rfl pauseMarks (by decide) r hp
        obtain ⟨k, hk, hr⟩ := this
        exact ⟨k, hk, by simp [hs, hp, hr]⟩
    · have := tryMarkCut_take text (text.take m) m rfl sentenceEndMarks (by decide) r hs
      obtain ⟨k, hk, hr⟩ := this
      exact ⟨k, hk, by simp [hs, hr]⟩

/-- Claim C10 (amended): whenever the provider bound `m` is positive, the
text submitted for synthesis is a byte-prefix of the normalized text of
length at most `m` — the cut suffix is simply absent from the single
submission.  (The cut point is chosen by trying the mark kinds in the fixed
order 。！？.!? then ，；,; then space, taking the last occurrence of the
first kind found strictly inside the window; a mark at byte 0 or at the
window edge is ignored, and otherwise the text is cut hard at `m`.) -/
theorem C10_bounded_submission :
    ∀ (text : Str) (m : Nat), 0 < m →
      (∃ k, unifiedProcessTextForProvider m text = (utf8Encode (ProcessText text)).take k) ∧
      (unifiedProcessTextForProvider m text).length ≤ m := by
  intro text m hm
  by_cases hex : 0 < m ∧ m < (utf8Encode (ProcessText text)).length
  · obtain ⟨k, hk, heq⟩ := SplitTextIntelligently_take (utf8Encode (ProcessText text)) m
    constructor
    · exact ⟨k, by simp [unifiedProcessTextForProvider, hex, heq]⟩
    · simp [unifiedProcessTextForProvider, hex, heq, List.length_take]
      omega
  · have hlen : (utf8Encode (ProcessText text)).length ≤ m := by
      rcases Nat.lt_or_ge m (utf8Encode (ProcessText text)).length with h | h
      · exact absurd ⟨hm, h⟩ hex
      · exact h
    constructor
    · refine ⟨(utf8Encode (ProcessText text)).length, ?_⟩
      simp [unifiedProcessTextForProvider, hex]
    · simp [unifiedProcessTextForProvider, hex]
      exact hlen

/-- Claim C10, witness: the bound discharged on a concrete short input. -/
theorem C10_bounded_submission_witness :
    (unifiedProcessTextForProvider 5 (gS ("ab"))).length ≤ 5 :=
  (C10_bounded_submission (gS ("ab")) 5 (by decide)).2

/-- Claim C10, counterexample to the cut rule as claimed: on the bytes of
`".abcdef"` with limit 3, a sentence-ending mark (`.` = 0x2E) lies within
the limit, yet the code hard-cuts to three bytes instead of cutting at the
mark (its `pos > 0` guard discards an occurrence at byte 0). -/
theorem C10_cut_rule_counterexample :
    SplitTextIntelligently (utf8Encode (gS (".abcdef"))) 3 = [0x2E, 0x61, 0x62] ∧
    ((utf8Encode (gS (".abcdef"))).take 3).head? = some 0x2E ∧
    SplitTextIntelligently (utf8Encode (gS (".abcdef"))) 3 ≠ [0x2E] := by
  exact ⟨by decide, by decide, by decide⟩

/-!  Claim C7: the merge-command sorting rule. -/

/-- Asymmetry of the byte-wise string order. -/
theorem strLtB_asymm : ∀ a b : Str, strLtB a b = true → strLtB b a = false := by
  intro a
  induction a with
  | nil =>
    intro b h
    cases b with
    | nil => simp [strLtB] at h
    | cons y ys => simp [strLtB]
  | cons x xs ih =>
    intro b h
    cases b with
    | nil => simp [strLtB] at h
    | cons y ys =>
      simp only [strLtB] at h ⊢
      by_cases h1 : x.toNat < y.toNat
      · have h2 : ¬ y.toNat < x.toNat := by omega
        simp only [Nat.blt_eq, h1, h2, if_true, if_false]
      · by_cases h2 : y.toNat < x.toNat
        · simp [Nat.blt_eq, h1, h2] at h
        · simp only [Nat.blt_eq, h1, h2, if_false] at h ⊢
          exact ih ys h

/-- Two strings incomparable under the byte-wise order are equal. -/
theorem strLtB_connex : ∀ a b : Str, strLtB a b = false → strLtB b a = false → a = b := by
  intro a
  induction a with
  | nil =>
    intro b h1 _
    cases b with
    | nil => rfl
    | cons y ys => simp [strLtB] at h1
  | cons x xs ih =>
    intro b h1 h2
    cases b with
    | nil => simp [strLtB] at h2
    | cons y ys =>
      simp only [strLtB] at h1 h2
      by_cases hxy : x.toNat < y.toNat
      · simp [Nat.blt_eq, hxy] at h1
      · by_cases hyx : y.toNat < x.toNat
        · simp [Nat.blt_eq, hyx] at h2
        · simp only [Nat.blt_eq, hxy, hyx, if_false] at h1 h2
          have hx : x = y := by
            have : x.toNat = y.toNat := by omega
            have := congrArg Char.ofNat this
            rwa [Char.ofNat_toNat, Char.ofNat_toNat] at this
          rw [hx, ih ys h1 h2]

/-- Transitivity of the byte-wise string order. -/
theorem strLtB_trans : ∀ a b c : Str, strLtB a b = true → strLtB b c = true → strLtB a c = true := by
  intro a
  induction a with
  | nil =>
    intro b c h1 h2
    cases b with
    | nil => simp [strLtB] at h1
    | cons y ys =>
      cases c with
      | nil => simp [strLtB] at h2
      | cons z zs => simp [strLtB]
  | cons x xs ih =>
    intro b c h1 h2
    cases b with
    | nil => simp [strLtB] at h1
    | cons y ys =>
      cases c with
      | nil => simp [strLtB] at h2
      | cons z zs =>
        simp only [strLtB] at h1 h2 ⊢
        by_cases hxy : x.toNat < y.toNat
        · by_cases hyz : y.toNat < z.toNat
          · have hxz : x.toNat < z.toNat := by omega
            simp only [Nat.blt_eq, hxz, if_true]
          · by_cases hzy : z.toNat < y.toNat
            · simp [Nat.blt_eq, hyz, hzy] at h2
            · have hyz2 : y.toNat = z.toNat := by omega
              have hxz : x.toNat < z.toNat := by omega
              simp only [Nat.blt_eq, hxz, if_true]
        · by_cases hyx : y.toNat < x.toNat
          · simp [Nat.blt_eq, hxy, hyx] at h1
          · have hxy2 : x.toNat = y.toNat := by omega
            simp only [Nat.blt_eq, hxy, hyx, if_false] at h1
            by_cases hyz : y.toNat < z.toNat
            · have hxz : x.toNat < z.toNat := by omega
              simp only [Nat.blt_eq, hxz, if_true]
            · by_cases hzy : z.toNat < y.toNat
              · simp [Nat.blt_eq, hyz, hzy] at h2
              · have hxz : ¬ x.toNat < z.toNat := by omega
                have hzx : ¬ z.toNat < x.toNat := by omega
                simp only [Nat.blt_eq, hyz, hzy, if_false] at h2
                simp only [Nat.blt_eq, hxz, hzx, if_false]
                exact ih ys zs h1 h2

/-- The comparator unfolded to an arithmetic description. -/
theorem audioLessB_iff (x y : AudioFileInfo) :
    audioLessB x y = true ↔
      (x.Number < y.Number ∨ (x.Number = y.Number ∧ strLtB x.Name y.Name = true)) := by
  simp only [audioLessB]
  by_cases hn : x.Number = y.Number
  · simp [hn]
  · have hb : (x.Number == y.Number) = false := by simp [hn]
    simp [hb, Nat.blt_eq, hn]

/-- The comparator refuted, unfolded. -/
theorem audioLessB_false_iff (x y : AudioFileInfo) :
    audioLessB x y = false ↔
      ¬ (x.Number < y.Number ∨ (x.Number = y.Number ∧ strLtB x.Name y.Name = true)) := by
  rw [← audioLessB_iff]
  cases audioLessB x y <;> simp

/-- Asymmetry of the merge-command comparator. -/
theorem audioLessB_asymm (x y : AudioFileInfo) :
    audioLessB x y = true → audioLessB y x = false := by
  intro h
  rw [audioLessB_iff] at h
  rw [audioLessB_false_iff]
  rintro (h2 | ⟨he2, hs2⟩)
  · rcases h with h1 | ⟨he1, _⟩
    · omega
    · omega
  · rcases h with h1 | ⟨he1, hs1⟩
    · omega
    · have := strLtB_asymm _ _ hs1
      rw [this] at hs2
      exact Bool.false_ne_true hs2

/-- Incomparable records agree on both fields. -/
theorem audioLessB_connex (x y : AudioFileInfo) :
    audioLessB x y = false → audioLessB y x = false → x = y := by
  intro h1 h2
  rw [audioLessB_false_iff] at h1 h2
  push_neg at h1 h2
  have hnum : x.Number = y.Number := by omega
  have hs1 : strLtB x.Name y.Name = false := by
    cases hs : strLtB x.Name y.Name with
    | false => rfl
    | true => exact absurd hs (h1.2 hnum)
  have hs2 : strLtB y.Name x.Name = false := by
    cases hs : strLtB y.Name x.Name with
    | false => rfl
    | true => exact absurd hs (h2.2 hnum.symm)
  have hname : x.Name = y.Name := strLtB_connex _ _ hs1 hs2
  cases x with
  | mk xn xnum =>
    cases y with
    | mk yn ynum =>
      simp only at hnum hname
      rw [hnum, hname]

/-- Transitivity of the merge-command comparator. -/
theorem audioLessB_trans (x y z : AudioFileInfo) :
    audioLessB x y = true → audioLessB y z = true → audioLessB x z = true := by
  intro h1 h2
  rw [audioLessB_iff] at h1 h2 ⊢
  rcases h1 with hl1 | ⟨he1, hs1⟩
  · rcases h2 with hl2 | ⟨he2, _⟩
    · exact Or.inl (by omega)
    · exact Or.inl (by omega)
  · rcases h2 with hl2 | ⟨he2, hs2⟩
    · exact Or.inl (by omega)
    · exact Or.inr ⟨by omega, strLtB_trans _ _ _ hs1 hs2⟩

instance : IsTotal AudioFileInfo (fun x y => audioLessB y x = false) := by
  constructor
  intro a b
  cases h : audioLessB b a with
  | false => exact Or.inl rfl
  | true => exact Or.inr (audioLessB_asymm b a h)

instance : IsTrans AudioFileInfo (fun x y => audioLessB y x = false) := by
  constructor
  intro a b c hab hbc
  cases h : audioLessB c a with
  | false => rfl
  | true =>
    exfalso
    cases hab2 : audioLessB a b with
    | true =>
      have : audioLessB c b = true := audioLessB_trans c a b h hab2
      rw [this] at hbc
      exact Bool.true_eq_false.mp hbc
    | false =>
      have hba : a = b := audioLessB_connex a b hab2 hab
      rw [← hba] at hbc
      rw [h] at hbc
      exact Bool.true_eq_false.mp hbc

/-- Claim C7, counterexample: the digitless basename `a.mp3` receives the
sentinel key 999999 and sorts **before** `z1000000.mp3`, whose digit run
parses above the sentinel — so files without digits do not all sort after
files with digits. -/
theorem C7_digitless_order_counterexample :
    extractNumberFromFilename (gS ("a.mp3")) = 999999 ∧
    extractNumberFromFilename (gS ("z1000000.mp3")) = 1000000 ∧
    sortAudioFilesByNumber [mkAudioFileInfo (gS ("z1000000.mp3")), mkAudioFileInfo (gS ("a.mp3"))] =
      [mkAudioFileInfo (gS ("a.mp3")), mkAudioFileInfo (gS ("z1000000.mp3"))] := by
  exact ⟨by decide, by decide, by decide⟩

/-- Claim C7 (amended): the sort key is the first-longest digit run of the
basename minus extension, parsed as an integer, with the sentinel 999999
both for digitless basenames and for runs that overflow a 64-bit integer;
the order is ascending key with ties broken by the whole basename; a file
whose key is strictly below the sentinel therefore precedes every digitless
file, but digitless files tie with keys equal to 999999 and precede keys
above it. -/
theorem C7_merge_sort_rule :
    (∀ name : Str, digitRuns (trimSuffixStr name (goFilepathExt name)) = [] →
        extractNumberFromFilename name = 999999) ∧
    (∀ files : List AudioFileInfo,
        (sortAudioFilesByNumber files).Perm files ∧
        (sortAudioFilesByNumber files).Pairwise (fun x y => audioLessB y x = false)) ∧
    (∀ a b : Str, extractNumberFromFilename a < 999999 →
        digitRuns (trimSuffixStr b (goFilepathExt b)) = [] →
        audioLessB (mkAudioFileInfo a) (mkAudioFileInfo b) = true) := by
  refine ⟨?_, ?_, ?_⟩
  · intro name h
    simp [extractNumberFromFilename, h]
  · intro files
    exact ⟨List.perm_insertionSort _ _, List.sorted_insertionSort _ files⟩
  · intro a b ha hb
    have hbnum : extractNumberFromFilename b = 999999 := by
      simp [extractNumberFromFilename, hb]
    rw [audioLessB_iff]
    left
    show extractNumberFromFilename a < extractNumberFromFilename b
    rw [hbnum]
    exact ha

/-- Claim C7, witness: the amended rule discharged on concrete names. -/
theorem C7_merge_sort_rule_witness :
    extractNumberFromFilename (gS ("nodigit.mp3")) = 999999 ∧
    audioLessB (mkAudioFileInfo (gS ("audio_001.mp3"))) (mkAudioFileInfo (gS ("nodigit.mp3"))) = true :=
  ⟨C7_merge_sort_rule.1 (gS ("nodigit.mp3")) (by decide),
   C7_merge_sort_rule.2.2 (gS ("audio_001.mp3")) (gS ("nodigit.mp3")) (by decide) (by decide)⟩

/-!  Claim C5: the audio validator rules. -/

/-- The codec header rule exactly as the claim states it (for the
refinement comparison with the implementation): mp3 by ID3 tag or frame
sync, wav by RIFF/WAVE, flac by fLaC, ogg by OggS, m4a/aac and unknown by
size alone. -/
def claimHeaderRule (ext : Str) (buffer : Bytes) : Bool :=
  if ext == gS (".mp3") then
    (buffer.take 3 == id3Bytes) ||
      (buffer.headD 0 == 0xFF && ((buffer.getD 1 0) &&& 0xF0 == 0xF0))
  else if ext == gS (".wav") then
    (buffer.take 4 == [0x52, 0x49, 0x46, 0x46]) && ((buffer.drop 8).take 4 == [0x57, 0x41, 0x56, 0x45])
  else if ext == gS (".flac") then buffer.take 4 == [0x66, 0x4C, 0x61, 0x43]
  else if ext == gS (".ogg") then buffer.take 4 == [0x4F, 0x67, 0x67, 0x53]
  else true

/-- The claim's validator acceptance condition: the file exists, holds at
least 1024 bytes, and its leading bytes satisfy the codec rule. -/
def claimValidatorAccepts (path : Str) (file : Option Bytes) : Bool :=
  match file with
  | none => false
  | some bs =>
    Nat.ble 1024 bs.length && claimHeaderRule (toLowerAscii (goFilepathExt path)) (bs.take 12)

/-- A 1024-byte file of zeroes: large enough, with no recognizable header. -/
def c5Junk : Bytes := List.replicate 1024 0

/-- Claim C5, counterexample: the concurrent validator accepts a headerless
file under the `flac` codec (size-only check), although the claim's flac
rule requires the `fLaC` magic — which the merge-only validator does
enforce. -/
theorem C5_concurrent_flac_counterexample :
    concurrentValidateAudioFile (gS ("flac")) (some c5Junk) = true ∧
    validateSingleAudioFile (gS ("x.flac")) (some c5Junk) = false ∧
    (c5Junk.take 4 == [0x66, 0x4C, 0x61, 0x43]) = false := by
  refine ⟨by decide, by decide, by decide⟩

/-- Claim C5 (amended): the merge-only validator
(`validateSingleAudioFile`) accepts exactly under the claim's
existence/size/header rule; the concurrent validator checks headers only
for the `mp3` and `wav` codecs, and for every other codec (`flac` and
`ogg` included) accepts any existing file of at least 1024 bytes. -/
theorem C5_validator_rules :
    (∀ (path : Str) (file : Option Bytes),
        validateSingleAudioFile path file = claimValidatorAccepts path file) ∧
    (∀ (codec : Str) (file : Option Bytes),
        toLowerAscii codec ≠ gS ("mp3") → toLowerAscii codec ≠ gS ("wav") →
        concurrentValidateAudioFile codec file =
          (match file with | none => false | some bs => Nat.ble 1024 bs.length)) := by
  constructor
  · intro path file
    cases file with
    | none => rfl
    | some bs =>
      simp only [validateSingleAudioFile, claimValidatorAccepts]
      by_cases h : bs.length < 1024
      · have hble : Nat.ble 1024 bs.length = false := by
          rw [Bool.eq_false_iff]
          rw [Ne, Nat.ble_eq]
          omega
        simp [h, hble]
      · have hble : Nat.ble 1024 bs.length = true := by rw [Nat.ble_eq]; omega
        have hlen : (bs.take 12).length = 12 := by rw [List.length_take]; omega
        have hb3 : Nat.ble 3 12 = true := rfl
        have hb12 : Nat.ble 12 12 = true := rfl
        have hb8 : Nat.ble 8 12 = true := rfl
        have hb4 : Nat.ble 4 12 = true := rfl
        simp only [if_neg h, hble, Bool.true_and, hlen, claimHeaderRule]
        by_cases e1 : toLowerAscii (goFilepathExt path) = gS (".mp3")
        · simp +decide [e1, hb3]
        · by_cases e2 : toLowerAscii (goFilepathExt path) = gS (".wav")
          · simp +decide [e1, e2, hb12]
          · by_cases e3 : toLowerAscii (goFilepathExt path) = gS (".m4a") ∨
                toLowerAscii (goFilepathExt path) = gS (".aac")
            · rcases e3 with h3 | h3 <;> simp +decide [h3]
            · by_cases e4 : toLowerAscii (goFilepathExt path) = gS (".flac")
              · simp +decide [e4, hb4]
              · by_cases e5 : toLowerAscii (goFilepathExt path) = gS (".ogg")
                · simp +decide [e5, hb4]
                · simp [e1, e2, e3, e4, e5]
  · intro codec file h1 h2
    cases file with
    | none => rfl
    | some bs =>
      simp only [concurrentValidateAudioFile]
      by_cases h : bs.length < 1024
      · have hble : Nat.ble 1024 bs.length = false := by
          rw [Bool.eq_false_iff]
          rw [Ne, Nat.ble_eq]
          omega
        simp [h, hble]
      · have hble : Nat.ble 1024 bs.length = true := by rw [Nat.ble_eq]; omega
        have hlen : (bs.take 12).length = 12 := by rw [List.length_take]; omega
        have e1 : (toLowerAscii codec == gS ("mp3")) = false := by
          rw [Bool.eq_false_iff]
          simpa using h1
        have e2 : (toLowerAscii codec == gS ("wav")) = false := by
          rw [Bool.eq_false_iff]
          simpa using h2
        simp [h, hble, hlen, e1, e2]

/-- Claim C5, witness: the hypotheses of the concurrent-validator clause
discharged on the `flac` codec and a concrete file. -/
theorem C5_validator_rules_witness :
    concurrentValidateAudioFile (gS ("flac")) (some c5Junk) =
      (match some c5Junk with | none => false | some bs => Nat.ble 1024 bs.length) :=
  C5_validator_rules.2 (gS ("flac")) (some c5Junk) (by decide) (by decide)

/-!  Claim C6: merge success policy. -/

/-- Claim C6 (amended): the pipeline merge succeeds exactly when some input
passes validation (in particular it fails when the input list is empty or
no input is valid); the merge-only service, however, fails only on an empty
input list and succeeds — writing just the valid inputs, possibly none —
whenever the list is non-empty. -/
theorem C6_merge_empty_policy :
    (∀ (fs : GoFS) (files : List Str),
        (∃ out, unifiedMergeAudioFiles fs files = .ok out) ↔
          (∃ f ∈ files, unifiedValidateAudioFile (fs f) = true)) ∧
    (∀ (fs : GoFS) (files : List Str), files ≠ [] →
        mergeOnlyMergeAudioFiles fs files =
          .ok (((files.filter
                  (fun f => (fs f).isSome && validateSingleAudioFile f (fs f))).map
                (fun f => (fs f).getD [])).flatten)) ∧
    (∀ fs : GoFS, mergeOnlyMergeAudioFiles fs [] = .error .noInput) := by
  refine ⟨?_, ?_, ?_⟩
  · intro fs files
    simp only [unifiedMergeAudioFiles]
    by_cases he : files.isEmpty
    · have : files = [] := List.isEmpty_iff.mp he
      subst this
      simp
    · rw [if_neg he]
      by_cases hv : (files.filter (fun f => unifiedValidateAudioFile (fs f))).isEmpty
      · rw [if_pos hv]
        have hnil := List.isEmpty_iff.mp hv
        constructor
        · rintro ⟨out, hout⟩
          exact absurd hout (by simp)
        · rintro ⟨f, hf, hval⟩
          have : f ∈ files.filter (fun f => unifiedValidateAudioFile (fs f)) :=
            List.mem_filter.mpr ⟨hf, hval⟩
          rw [hnil] at this
          exact absurd this (List.not_mem_nil f)
      · rw [if_neg hv]
        constructor
        · intro _
          have : ∃ f, f ∈ files.filter (fun f => unifiedValidateAudioFile (fs f)) := by
            rcases hx : files.filter (fun f => unifiedValidateAudioFile (fs f)) with _ | ⟨a, t⟩
            · rw [hx] at hv; simp at hv
            · exact ⟨a, by simp⟩
          obtain ⟨f, hf⟩ := this
          have := List.mem_filter.mp hf
          exact ⟨f, this.1, this.2⟩
        · intro _
          exact ⟨_, rfl⟩
  · intro fs files hne
    simp only [mergeOnlyMergeAudioFiles]
    rw [if_neg (by simpa using hne)]
  · intro fs
    rfl

/-- A file system with a single half-size (hence invalid) file. -/
def c6fs : GoFS := fun p => if p == gS ("bad.mp3") then some (List.replicate 512 0) else none

/-- Claim C6, counterexample: with one existing but invalid input the
merge-only service still returns success (and writes an empty output),
although the claim requires an `EmptyMerge` failure whenever no input is
valid. -/
theorem C6_zero_valid_success_counterexample :
    mergeOnlyMergeAudioFiles c6fs [gS ("bad.mp3")] = .ok [] ∧
    validateSingleAudioFile (gS ("bad.mp3")) (c6fs (gS ("bad.mp3"))) = false := by
  constructor
  · rfl
  · decide

/-- Claim C6, witness: the non-empty-input hypothesis discharged on the
concrete one-file list. -/
theorem C6_merge_empty_policy_witness :
    mergeOnlyMergeAudioFiles c6fs [gS ("bad.mp3")] =
      .ok ((([gS ("bad.mp3")].filter
              (fun f => (c6fs f).isSome && validateSingleAudioFile f (c6fs f))).map
            (fun f => (c6fs f).getD [])).flatten) :=
  C6_merge_empty_policy.2.1 c6fs [gS ("bad.mp3")] (by simp)

/-!  Claim C4: the cloud-task polling loops. -/

/-- A poll answer that keeps the Tencent-provider loop polling: a successful
query with status 0 or 1. -/
def pendingResp (r : Except Str TTSStatusResponse) : Bool :=
  match r with
  | .error _ => false
  | .ok st => st.Success && (st.Status == 0 || st.Status == 1)

/-- How the Tencent-provider loop settles a non-pending poll answer (the
branch structure of waitForTaskAndDownload). -/
def classifyTencent (r : Except Str TTSStatusResponse) : Except WaitErr Str :=
  match r with
  | .error e => .error (.transport e)
  | .ok st =>
    if !st.Success then .error (.query st.ErrMessage)
    else if st.Status == 2 then
      if st.AudioURL.isEmpty then .error .emptyURL else .ok st.AudioURL
    else if st.Status == 3 then .error (.taskFailed st.ErrorMsg)
    else .error (.unknownStatus st.Status)

/-- A poll answer that keeps the legacy loop polling: a successful query
whose status is neither 2 nor -1 (status 3 included). -/
def legacyPending (r : Except Str TTSStatusResponse) : Bool :=
  match r with
  | .error _ => false
  | .ok st => st.Success && !(st.Status == 2) && !(st.Status == (-1 : Int))

/-- How the legacy loop settles a non-pending poll answer; the final branch
is unreachable, since an answer reaching it would be `legacyPending`. -/
def classifyLegacy (r : Except Str TTSStatusResponse) : Except WaitErr Str :=
  match r with
  | .error e => .error (.transport e)
  | .ok st =>
    if !st.Success then .error (.query st.ErrMessage)
    else if st.Status == 2 then
      if st.AudioURL.isEmpty then .error .emptyURL else .ok st.AudioURL
    else if st.Status == (-1 : Int) then .error (.taskFailed st.ErrorMsg)
    else .error .timeout

/-- If every poll in the budget is pending, the Tencent loop times out
after sleeping 2 s per poll. -/
theorem tencentWaitAux_timeout (resp : Nat → Except Str TTSStatusResponse) :
    ∀ (fuel start : Nat), (∀ k, k < fuel → pendingResp (resp (start + k)) = true) →
      tencentWaitAux resp fuel start = (.error .timeout, 2 * fuel) := by
  intro fuel
  induction fuel with
  | zero => intro start _; rfl
  | succ f ih =>
    intro start h
    have h0 := h 0 (by omega)
    rw [Nat.add_zero] at h0
    cases hr : resp start with
    | error e => rw [hr] at h0; simp [pendingResp] at h0
    | ok st =>
      rw [hr] at h0
      simp only [pendingResp, Bool.and_eq_true] at h0
      obtain ⟨hs, hor⟩ := h0
      have h2 : (st.Status == 2) = false := by
        rcases Bool.or_eq_true _ _ |>.mp hor with h | h
        · have := beq_iff_eq.mp h
          simp [beq_eq_false_iff_ne]
          omega
        · have := beq_iff_eq.mp h
          simp [beq_eq_false_iff_ne]
          omega
      have h3 : (st.Status == 3) = false := by
        rcases Bool.or_eq_true _ _ |>.mp hor with h | h
        · have := beq_iff_eq.mp h
          simp [beq_eq_false_iff_ne]
          omega
        · have := beq_iff_eq.mp h
          simp [beq_eq_false_iff_ne]
          omega
      have hrec := ih (start + 1) (fun k hk => by
        have := h (k + 1) (by omega)
        rwa [show start + (k + 1) = start + 1 + k by omega] at this)
      simp only [tencentWaitAux, hr, hs, Bool.not_true, Bool.false_eq_true, if_false, h2, h3,
        hor, if_true, hrec]
      rw [Prod.mk.injEq]
      exact ⟨rfl, by omega⟩

/-- The first non-pending poll inside the budget settles the Tencent loop,
having slept 2 s for each pending poll before it. -/
theorem tencentWaitAux_first (resp : Nat → Except Str TTSStatusResponse) :
    ∀ (j fuel start : Nat), j < fuel →
      (∀ k, k < j → pendingResp (resp (start + k)) = true) →
      pendingResp (resp (start + j)) = false →
      tencentWaitAux resp fuel start = (classifyTencent (resp (start + j)), 2 * j) := by
  intro j
  induction j with
  | zero =>
    intro fuel start hfuel _ hnp
    cases fuel with
    | zero => omega
    | succ f =>
      rw [Nat.add_zero] at hnp
      cases hr : resp start with
      | error e => simp [tencentWaitAux, classifyTencent, hr]
      | ok st =>
        rw [hr] at hnp
        by_cases hs : st.Success
        · simp only [pendingResp, hs, Bool.true_and] at hnp
          simp [tencentWaitAux, classifyTencent, hr, hs, hnp]
          all_goals split_ifs <;> rfl
        · have hs2 : st.Success = false := by
            cases hsv : st.Success
            · rfl
            · exact absurd hsv hs
          simp [tencentWaitAux, classifyTencent, hr, hs2]
  | succ j ih =>
    intro fuel start hfuel hpend hnp
    cases fuel with
    | zero => omega
    | succ f =>
      have h0 := hpend 0 (by omega)
      rw [Nat.add_zero] at h0
      cases hr : resp start with
      | error e => rw [hr] at h0; simp [pendingResp] at h0
      | ok st =>
        rw [hr] at h0
        simp only [pendingResp, Bool.and_eq_true] at h0
        obtain ⟨hs, hor⟩ := h0
        have h2 : (st.Status == 2) = false := by
          rcases Bool.or_eq_true _ _ |>.mp hor with h | h
          · have := beq_iff_eq.mp h
            simp [beq_eq_false_iff_ne]
            omega
          · have := beq_iff_eq.mp h
            simp [beq_eq_false_iff_ne]
            omega
        have h3 : (st.Status == 3) = false := by
          rcases Bool.or_eq_true _ _ |>.mp hor with h | h
          · have := beq_iff_eq.mp h
            simp [beq_eq_false_iff_ne]
            omega
          · have := beq_iff_eq.mp h
            simp [beq_eq_false_iff_ne]
            omega
        have hrec := ih f (start + 1) (by omega)
          (fun k hk => by
            have := hpend (k + 1) (by omega)
            rwa [show start + (k + 1) = start + 1 + k by omega] at this)
          (by rwa [show start + 1 + j = start + (j + 1) by omega])
        simp only [tencentWaitAux, hr, hs, Bool.not_true, Bool.false_eq_true, if_false, h2, h3,
          hor, if_true, hrec]
        rw [Prod.mk.injEq]
        exact ⟨by rw [show start + 1 + j = start + (j + 1) by omega], by omega⟩

/-- If every poll in the budget is non-terminal, the legacy loop times out
after sleeping 6 s per poll. -/
theorem concurrentWaitAux_timeout (resp : Nat → Except Str TTSStatusResponse) :
    ∀ (fuel start : Nat), (∀ k, k < fuel → legacyPending (resp (start + k)) = true) →
      concurrentWaitAux resp fuel start = (.error .timeout, 6 * fuel) := by
  intro fuel
  induction fuel with
  | zero => intro start _; rfl
  | succ f ih =>
    intro start h
    have h0 := h 0 (by omega)
    rw [Nat.add_zero] at h0
    cases hr : resp start with
    | error e => rw [hr] at h0; simp [legacyPending] at h0
    | ok st =>
      rw [hr] at h0
      simp only [legacyPending, Bool.and_eq_true, Bool.not_eq_true'] at h0
      obtain ⟨⟨hs, h2⟩, hm1⟩ := h0
      have hrec := ih (start + 1) (fun k hk => by
        have := h (k + 1) (by omega)
        rwa [show start + (k + 1) = start + 1 + k by omega] at this)
      simp only [concurrentWaitAux, hr, hs, Bool.not_true, Bool.false_eq_true, if_false, h2, hm1,
        hrec]
      rw [Prod.mk.injEq]
      exact ⟨rfl, by omega⟩

/-- The first terminal poll inside the budget settles the legacy loop,
having slept 6 s for each non-terminal poll before it. -/
theorem concurrentWaitAux_first (resp : Nat → Except Str TTSStatusResponse) :
    ∀ (j fuel start : Nat), j < fuel →
      (∀ k, k < j → legacyPending (resp (start + k)) = true) →
      legacyPending (resp (start + j)) = false →
      concurrentWaitAux resp fuel start = (classifyLegacy (resp (start + j)), 6 * j) := by
  intro j
  induction j with
  | zero =>
    intro fuel start hfuel _ hnp
    cases fuel with
    | zero => omega
    | succ f =>
      rw [Nat.add_zero] at hnp
      cases hr : resp start with
      | error e => simp [concurrentWaitAux, classifyLegacy, hr]
      | ok st =>
        rw [hr] at hnp
        by_cases hs : st.Success
        · simp only [legacyPending, hs, Bool.true_and] at hnp
          by_cases h2 : (st.Status == 2) = true
          · simp [concurrentWaitAux, classifyLegacy, hr, hs, h2]
            all_goals split_ifs <;> rfl
          · have h2f : (st.Status == 2) = false := by
              cases hv : (st.Status == 2)
              · rfl
              · exact absurd hv h2
            rw [h2f] at hnp
            simp only [Bool.not_false, Bool.true_and, Bool.not_eq_false'] at hnp
            simp [concurrentWaitAux, classifyLegacy, hr, hs, h2f, hnp]
        · have hs2 : st.Success = false := by
            cases hsv : st.Success
            · rfl
            · exact absurd hsv hs
          simp [concurrentWaitAux, classifyLegacy, hr, hs2]
  | succ j ih =>
    intro fuel start hfuel hpend hnp
    cases fuel with
    | zero => omega
    | succ f =>
      have h0 := hpend 0 (by omega)
      rw [Nat.add_zero] at h0
      cases hr : resp start with
      | error e => rw [hr] at h0; simp [legacyPending] at h0
      | ok st =>
        rw [hr] at h0
        simp only [legacyPending, Bool.and_eq_true, Bool.not_eq_true'] at h0
        obtain ⟨⟨hs, h2⟩, hm1⟩ := h0
        have hrec := ih f (start + 1) (by omega)
          (fun k hk => by
            have := hpend (k + 1) (by omega)
            rwa [show start + (k + 1) = start + 1 + k by omega] at this)
          (by rwa [show start + 1 + j = start + (j + 1) by omega])
        simp only [concurrentWaitAux, hr, hs, Bool.not_true, Bool.false_eq_true, if_false, h2,
          hm1, hrec]
        rw [Prod.mk.injEq]
        exact ⟨by rw [show start + 1 + j = start + (j + 1) by omega], by omega⟩

/-- Claim C4, counterexample: the polling loop that the `tts` command
actually uses treats status 3 as "keep polling", not as failure — after a
status-3 answer it goes on to accept the next poll's URL; its cadence is
6 s, not 2 s. -/
def c4resp : Nat → Except Str TTSStatusResponse := fun k =>
  if k == 0 then .ok ⟨true, 3, gS ("u0"), gS ("boom"), []⟩
  else .ok ⟨true, 2, gS ("u1"), [], []⟩

/-- Claim C4, counterexample (see `c4resp`). -/
theorem C4_status3_counterexample :
    c4resp 0 = .ok ⟨true, 3, gS ("u0"), gS ("boom"), []⟩ ∧
    concurrentWaitForTask c4resp = (.ok (gS ("u1")), 6) := by
  exact ⟨rfl, rfl⟩

/-- Claim C4 (amended): the unified cloud-task backend
(TencentTTSProvider.waitForTaskAndDownload) polls on a 2 s cadence for at
most 30 polls (60 s), with status 2 a success requiring a non-empty URL,
status 3 a failure surfacing the server's error string, statuses 0/1
pending, any other status a protocol error, and a timeout otherwise; the
loop used by the `tts` command (ConcurrentAudioService.waitForTTSCompletion)
instead polls on a 6 s cadence for at most 30 polls (180 s), takes -1 — not
3 — as the failure status, and keeps polling on every other non-2 status. -/
theorem C4_cloud_polling :
    (∀ (resp : Nat → Except Str TTSStatusResponse) (j : Nat), j < 30 →
        (∀ k, k < j → pendingResp (resp k) = true) → pendingResp (resp j) = false →
        tencentWaitForTask resp = (classifyTencent (resp j), 2 * j)) ∧
    (∀ resp : Nat → Except Str TTSStatusResponse, (∀ k, k < 30 → pendingResp (resp k) = true) →
        tencentWaitForTask resp = (.error .timeout, 60)) ∧
    (∀ (resp : Nat → Except Str TTSStatusResponse) (j : Nat), j < 30 →
        (∀ k, k < j → legacyPending (resp k) = true) → legacyPending (resp j) = false →
        concurrentWaitForTask resp = (classifyLegacy (resp j), 6 * j)) ∧
    (∀ resp : Nat → Except Str TTSStatusResponse, (∀ k, k < 30 → legacyPending (resp k) = true) →
        concurrentWaitForTask resp = (.error .timeout, 180)) := by
  refine ⟨?_, ?_, ?_, ?_⟩
  · intro resp j hj hpend hnp
    have := tencentWaitAux_first resp j 30 0 hj
      (fun k hk => by simpa using hpend k hk) (by simpa using hnp)
    simpa [tencentWaitForTask] using this
  · intro resp h
    have := tencentWaitAux_timeout resp 30 0 (fun k hk => by simpa using h k hk)
    simpa [tencentWaitForTask] using this
  · intro resp j hj hpend hnp
    have := concurrentWaitAux_first resp j 30 0 hj
      (fun k hk => by simpa using hpend k hk) (by simpa using hnp)
    simpa [concurrentWaitForTask] using this
  · intro resp h
    have := concurrentWaitAux_timeout resp 30 0 (fun k hk => by simpa using h k hk)
    simpa [concurrentWaitForTask] using this

/-- One pending poll, then success: the witness sequence. -/
def c4respW : Nat → Except Str TTSStatusResponse := fun k =>
  if k == 0 then .ok ⟨true, 0, [], [], []⟩
  else .ok ⟨true, 2, gS ("url"), [], []⟩

/-- Claim C4, witness: the first-terminal-poll clause discharged on a
concrete sequence (one pending poll, then a status-2 answer). -/
theorem C4_cloud_polling_witness :
    tencentWaitForTask c4respW = (classifyTencent (c4respW 1), 2 * 1) :=
  C4_cloud_polling.1 c4respW 1 (by omega)
    (fun k hk => by
      have : k = 0 := by omega
      subst this
      rfl)
    (by rfl)

/-!  Claim C8: retry bound and backoff. -/

/-- The payload of an attempt outcome (the path on success, the error
string on failure). -/
def exVal (r : Except Str Str) : Str :=
  match r with
  | .ok p => p
  | .error e => e

/-- A successful first attempt is at or after the scan base. -/
theorem firstSuccessAux_ge (gen : Nat → Except Str Str) :
    ∀ (f a j : Nat), firstSuccessAux gen f a = some j → a ≤ j ∧ j < a + f := by
  intro f
  induction f with
  | zero => intro a j h; simp [firstSuccessAux] at h
  | succ f ih =>
    intro a j h
    simp only [firstSuccessAux] at h
    cases hga : gen a with
    | ok p =>
      rw [hga] at h
      simp at h
      omega
    | error e =>
      rw [hga] at h
      have := ih (a + 1) j h
      omega

/-- Peeling one attempt off the canonical trace. -/
theorem canonTraceFrom_cons (base a stop : Nat) (h : a < stop) :
    canonTraceFrom base a stop =
      RetryEv.call a :: RetryEv.slept (a * base) :: canonTraceFrom base (a + 1) stop := by
  unfold canonTraceFrom
  rw [show stop - a = (stop - (a + 1)) + 1 by omega]
  rw [List.range'_succ]
  simp

/-- The canonical trace from attempt `a` to `stop` makes `stop - a + 1`
synthesize calls. -/
theorem callCount_canonTraceFrom (base : Nat) :
    ∀ (n a : Nat), callCount (canonTraceFrom base a (a + n)) = n + 1 := by
  intro n
  induction n with
  | zero => intro a; simp [canonTraceFrom, callCount, List.filter]
  | succ n ih =>
    intro a
    rw [canonTraceFrom_cons base a (a + (n + 1)) (by omega)]
    have := ih (a + 1)
    rw [show a + 1 + n = a + (n + 1) by omega] at this
    simp only [callCount, List.filter] at this ⊢
    simp [this]

/-- Characterization of the shared retry loop: it calls `gen` at attempts
`a, a+1, …` until the first success or the attempt cap, sleeping
`attempt · base` between consecutive attempts, and on total failure carries
the cap and the last error. -/
theorem retryLoopAux_spec (gen : Nat → Except Str Str) (base m : Nat) :
    ∀ (f a : Nat) (le : Option Str), f + a = m + 1 → 1 ≤ a →
      (∀ j, firstSuccessAux gen f a = some j →
        retryLoopAux gen base m f a le = (.ok (exVal (gen j)), canonTraceFrom base a j)) ∧
      (firstSuccessAux gen f a = none → 1 ≤ f →
        retryLoopAux gen base m f a le =
          (.error (m, some (exVal (gen m))), canonTraceFrom base a m)) := by
  intro f
  induction f with
  | zero =>
    intro a le hsum ha
    constructor
    · intro j h
      simp [firstSuccessAux] at h
    · intro _ h
      omega
  | succ f ih =>
    intro a le hsum ha
    have hok : ∀ p, gen a = .ok p →
        retryLoopAux gen base m (f + 1) a le = (.ok p, [RetryEv.call a]) := by
      intro p hga
      simp [retryLoopAux, hga]
    have herrlt : ∀ e, gen a = .error e → a < m →
        retryLoopAux gen base m (f + 1) a le =
          ((retryLoopAux gen base m f (a + 1) (some e)).1,
            RetryEv.call a :: RetryEv.slept (a * base) ::
              (retryLoopAux gen base m f (a + 1) (some e)).2) := by
      intro e hga hlt
      simp [retryLoopAux, hga, hlt]
    have herrge : ∀ e, gen a = .error e → ¬ a < m →
        retryLoopAux gen base m (f + 1) a le = (.error (m, some e), [RetryEv.call a]) := by
      intro e hga hge
      simp [retryLoopAux, hga, hge]
    constructor
    · intro j h
      simp only [firstSuccessAux] at h
      cases hga : gen a with
      | ok p =>
        rw [hga] at h
        simp only [Option.some.injEq] at h
        subst h
        rw [hok p hga, hga]
        simp [exVal, canonTraceFrom]
      | error e =>
        rw [hga] at h
        cases f with
        | zero => simp [firstSuccessAux] at h
        | succ f2 =>
          have hge := firstSuccessAux_ge gen (f2 + 1) (a + 1) j h
          have halt : a < m := by omega
          have hrec := (ih (a + 1) (some e) (by omega) (by omega)).1 j h
          rw [herrlt e hga halt]
          simp only [hrec]
          rw [canonTraceFrom_cons base a j (by omega)]
    · intro hnone hf
      simp only [firstSuccessAux] at hnone
      cases hga : gen a with
      | ok p => rw [hga] at hnone; simp at hnone
      | error e =>
        rw [hga] at hnone
        cases f with
        | zero =>
          have ham : a = m := by omega
          have hnl : ¬ a < m := by omega
          rw [herrge e hga hnl]
          subst ham
          rw [hga]
          simp [exVal, canonTraceFrom]
        | succ f2 =>
          have halt : a < m := by omega
          have hrec := (ih (a + 1) (some e) (by omega) (by omega)).2 hnone (by omega)
          rw [herrlt e hga halt]
          simp only [hrec]
          rw [canonTraceFrom_cons base a m (by omega)]

/-- Claim C8 (confirmed): for both retry loops — the unified/Edge one with
backoff base 1 s and the concurrent/Tencent one with base 2 s — the backend
is called at attempts `1, …, j` where `j ≤ max_retries` is the first
success (or `j = max_retries` when all fail), the worker sleeps exactly
`k · base` seconds between attempts `k` and `k+1`, and after the final
failed attempt the result carries `max_retries` and the last error. -/
theorem C8_retry_bound_and_backoff :
    ∀ (gen : Nat → Except Str Str) (m : Nat), 1 ≤ m →
      ((∀ j, firstSuccessAux gen m 1 = some j →
          j ≤ m ∧
          unifiedGenerateAudioWithRetry gen m = (.ok (exVal (gen j)), canonTraceFrom 1 1 j) ∧
          concurrentGenerateAudioWithRetry gen m = (.ok (exVal (gen j)), canonTraceFrom 2 1 j) ∧
          callCount (unifiedGenerateAudioWithRetry gen m).2 = j) ∧
       (firstSuccessAux gen m 1 = none →
          unifiedGenerateAudioWithRetry gen m =
            (.error (m, some (exVal (gen m))), canonTraceFrom 1 1 m) ∧
          concurrentGenerateAudioWithRetry gen m =
            (.error (m, some (exVal (gen m))), canonTraceFrom 2 1 m) ∧
          callCount (unifiedGenerateAudioWithRetry gen m).2 = m)) := by
  intro gen m hm
  constructor
  · intro j h
    have hge := firstSuccessAux_ge gen m 1 j h
    have h1 := (retryLoopAux_spec gen 1 m m 1 none (by omega) (by omega)).1 j h
    have h2 := (retryLoopAux_spec gen 2 m m 1 none (by omega) (by omega)).1 j h
    refine ⟨by omega, h1, h2, ?_⟩
    rw [show unifiedGenerateAudioWithRetry gen m = retryLoopAux gen 1 m m 1 none from rfl, h1]
    have := callCount_canonTraceFrom 1 (j - 1) 1
    rw [show 1 + (j - 1) = j by omega] at this
    rw [this]
    omega
  · intro h
    have h1 := (retryLoopAux_spec gen 1 m m 1 none (by omega) (by omega)).2 h (by omega)
    have h2 := (retryLoopAux_spec gen 2 m m 1 none (by omega) (by omega)).2 h (by omega)
    refine ⟨h1, h2, ?_⟩
    rw [show unifiedGenerateAudioWithRetry gen m = retryLoopAux gen 1 m m 1 none from rfl, h1]
    have := callCount_canonTraceFrom 1 (m - 1) 1
    rw [show 1 + (m - 1) = m by omega] at this
    rw [this]
    omega

/-- Two failures, then success on attempt 3. -/
def c8gen : Nat → Except Str Str := fun a =>
  if a ≤ 2 then .error (gS ("boom")) else .ok (gS ("p3"))

/-- Claim C8, witness: the success clause discharged at `max_retries = 3`
with failures on the first two attempts. -/
theorem C8_retry_bound_and_backoff_witness :
    unifiedGenerateAudioWithRetry c8gen 3 = (.ok (exVal (c8gen 3)), canonTraceFrom 1 1 3) :=
  ((C8_retry_bound_and_backoff c8gen 3 (by decide)).1 3 (by rfl)).2.1
/-!  Claim C2: plain-mode fragment emission and indexing. -/

/-- The concurrent task loop started at line index `i` emits one task per
surviving line, carrying the line's running index and normalized text. -/
theorem concurrentPlainTasksFrom_eq : ∀ (lines : List Str) (i : Nat),
    concurrentPlainTasksFrom i lines =
      ((lines.enumFrom i).filter (fun p => concurrentLineSurvives p.2)).map
        (fun p => ⟨p.1, ProcessText p.2⟩) := by
  intro lines
  induction lines with
  | nil => intro i; rfl
  | cons line rest ih =>
    intro i
    rw [List.enumFrom_cons]
    by_cases h1 : (goTrimSpace line).isEmpty
    · simp [concurrentPlainTasksFrom, concurrentLineSurvives, h1, ih]
    · by_cases h2 :
        (replaceAllLit (gS ("\t")) [] (replaceAllLit (gS (" ")) [] (goTrimSpace line))).isEmpty
      · simp [concurrentPlainTasksFrom, concurrentLineSurvives, h1, h2, ih]
      · by_cases h3 : quickMarkdownFilter (goTrimSpace line)
        · simp [concurrentPlainTasksFrom, concurrentLineSurvives, h1, h2, h3, ih]
        · by_cases h4 : IsValidTextForTTS line
          · by_cases h5 : (ProcessText line).isEmpty
            · simp [concurrentPlainTasksFrom, concurrentLineSurvives, h1, h2, h3, h4, h5, ih]
            · simp [concurrentPlainTasksFrom, concurrentLineSurvives, h1, h2, h3, h4, h5, ih]
          · simp [concurrentPlainTasksFrom, concurrentLineSurvives, h1, h2, h3, h4, ih]

/-- Claim C2 (corrected): the concurrent plain path emits exactly one task
per surviving line and that task carries the line's original (zero-based)
line index — but survival is stricter than `is_valid` (blank, markdown-like
and normalizing-to-empty lines are also dropped); the unified plain path
numbers its fragments `0, 1, …` by ordinal among the surviving lines, not by
original line number. -/
theorem C2_plain_mode_emission (lines : List Str) :
    concurrentPlainTasks lines =
      ((lines.enum.filter (fun p => concurrentLineSurvives p.2)).map
        (fun p => ⟨p.1, ProcessText p.2⟩)) ∧
    (unifiedPlainTasks lines).map (fun t => t.Index) =
      List.range (filterValidLines lines).length := by
  constructor
  · exact concurrentPlainTasksFrom_eq lines 0
  · rw [unifiedPlainTasks, List.map_map]
    rw [show ((fun t : TTSTask => t.Index) ∘ fun p : Nat × Str => (⟨p.1, p.2⟩ : TTSTask)) =
          Prod.fst from rfl]
    rw [List.enum_eq_enumFrom, List.enumFrom_map_fst, List.range_eq_range']

/-- Claim C2, counterexample: `hello world` on (zero-based) line 1 after a
blank line is valid yet receives fragment index 0 in the unified path; the
valid line `** hello` is dropped entirely by the concurrent path's markdown
filter. -/
theorem C2_unified_index_counterexample :
    IsValidTextForTTS (gS ("hello world")) = true ∧
    unifiedPlainTasks [gS (""), gS ("hello world")] = [⟨0, gS ("hello world")⟩] ∧
    IsValidTextForTTS (gS ("** hello")) = true ∧
    concurrentPlainTasks [gS ("** hello")] = [] := by
  refine ⟨by decide, by decide, by decide, by decide⟩
/-!  Claim C1: merged output contents and ordering. -/

instance : IsTotal TTSResult (fun a b => a.Index ≤ b.Index) :=
  ⟨fun a b => Nat.le_total a.Index b.Index⟩

instance : IsTrans TTSResult (fun a b => a.Index ≤ b.Index) :=
  ⟨fun _ _ _ => Nat.le_trans⟩

/-- A file accepted by the concurrent validator exists. -/
theorem concurrentValidate_isSome (codec : Str) (f : Option Bytes)
    (h : concurrentValidateAudioFile codec f = true) : f.isSome = true := by
  cases f with
  | none => simp [concurrentValidateAudioFile] at h
  | some bs => rfl

/-- `TrimSpace` is the identity on a string whose first and last characters
are not white space. -/
theorem goTrimSpace_id_of (c d : Char) (mid : Str)
    (hc : goIsUnicodeSpace c = false) (hd : goIsUnicodeSpace d = false) :
    goTrimSpace (c :: (mid ++ [d])) = c :: (mid ++ [d]) := by
  unfold goTrimSpace
  rw [show ((c :: (mid ++ [d])).dropWhile goIsUnicodeSpace) = c :: (mid ++ [d]) from by
    simp [List.dropWhile_cons, hc]]
  rw [show (c :: (mid ++ [d])).reverse = d :: (mid.reverse ++ [c]) from by simp]
  rw [show ((d :: (mid.reverse ++ [c])).dropWhile goIsUnicodeSpace) = d :: (mid.reverse ++ [c])
    from by simp [List.dropWhile_cons, hd]]
  simp

/-- Splitting on the first newline of a manifest. -/
theorem splitOnNl_append (xs ys : Str) (h : ¬ '\n' ∈ xs) :
    splitOnNl (xs ++ '\n' :: ys) = xs :: splitOnNl ys := by
  show (xs ++ '\n' :: ys).splitOn '\n' = xs :: ys.splitOn '\n'
  unfold List.splitOn
  exact List.splitOnP_first _ _
    (fun x hx hbeq => h (by rw [eq_of_beq hbeq] at hx; exact hx)) '\n' rfl ys

/-- The manifest parser recovers the path of one well-formed `file` line. -/
theorem parseLine_step (q : Str) (rest : List Str) :
    parseFileListLines ((gS ("file \x27") ++ (q ++ ['\x27'])) :: rest) =
      q :: parseFileListLines rest := by
  have hL : ('f' :: ((gS ("ile \x27") ++ q) ++ ['\x27'])) = gS ("file \x27") ++ (q ++ ['\x27']) := by
    rw [show gS ("file \x27") = 'f' :: gS ("ile \x27") from rfl]
    simp
  have htrim : goTrimSpace (gS ("file \x27") ++ (q ++ ['\x27'])) =
      gS ("file \x27") ++ (q ++ ['\x27']) := by
    rw [← hL]
    exact goTrimSpace_id_of 'f' '\x27' (gS ("ile \x27") ++ q) (by decide) (by decide)
  have hempty : (gS ("file \x27") ++ (q ++ ['\x27'])).isEmpty = false := by
    rw [← hL]
    rfl
  have hpre : strHasPre (gS ("file \x27") ++ (q ++ ['\x27'])) (gS ("file \x27")) = true := by
    simp [strHasPre, List.isPrefixOf_iff_prefix]
  have hsuf : strHasSuf (gS ("file \x27") ++ (q ++ ['\x27'])) (gS ("\x27")) = true := by
    rw [show gS ("\x27") = ['\x27'] from rfl]
    simp [strHasSuf, List.isSuffixOf_iff_suffix]
    exact ⟨gS ("file \x27") ++ q, by simp⟩
  have hdrop : ((gS ("file \x27") ++ (q ++ ['\x27'])).drop 6) = q ++ ['\x27'] := by
    rw [show (6 : Nat) = (gS ("file \x27")).length from rfl]
    exact List.drop_left _ _
  have hlen : (gS ("file \x27") ++ (q ++ ['\x27'])).length - 7 = q.length := by
    rw [← hL]
    simp [show (gS ("ile \x27")).length = 5 from rfl]
    omega
  have htake : (q ++ ['\x27']).take q.length = q := List.take_left _ _
  simp only [parseFileListLines, htrim, hempty, hpre, hsuf, Bool.and_self, Bool.false_eq_true,
    if_false, if_true]
  rw [hdrop, hlen, htake]

/-- ConcurrentAudioService: re-parsing the rendered file list gives back the
file list, provided no path contains a newline. -/
theorem parseFileList_roundtrip : ∀ files : List Str, (∀ q ∈ files, ¬ '\n' ∈ q) →
    parseFileList (renderFileList files) = files := by
  intro files
  induction files with
  | nil => intro _; rfl
  | cons q rest ih =>
    intro h
    have hq : ¬ '\n' ∈ q := h q (List.mem_cons_self q rest)
    have hrest := ih (fun x hx => h x (List.mem_cons_of_mem q hx))
    have hline : renderFileList (q :: rest) =
        (gS ("file \x27") ++ (q ++ ['\x27'])) ++ '\n' :: renderFileList rest := by
      show (gS ("file \x27") ++ q ++ gS ("\x27\n")) ++ renderFileList rest = _
      rw [show gS ("\x27\n") = ['\x27', '\n'] from rfl]
      simp
    unfold parseFileList at hrest ⊢
    rw [hline, splitOnNl_append _ _ (by simp +decide [hq]), parseLine_step, hrest]

/-- Sorting by index and then filtering yields strictly increasing indices,
whenever the input indices are pairwise distinct. -/
theorem sortFilter_pairwise (l : List TTSResult) (q : TTSResult → Bool)
    (hnd : (l.map (fun r => r.Index)).Nodup) :
    (((sortByIndex l).filter q).map (fun r => r.Index)).Pairwise (fun a b => a < b) := by
  have hperm : List.Perm (sortByIndex l) l := List.perm_insertionSort _ l
  have hsorted : (sortByIndex l).Pairwise (fun a b => a.Index ≤ b.Index) :=
    List.sorted_insertionSort _ l
  have hnd2 : ((sortByIndex l).map (fun r => r.Index)).Nodup :=
    ((hperm.map (fun r => r.Index)).nodup_iff).mpr hnd
  have hle : ((sortByIndex l).map (fun r => r.Index)).Pairwise (fun a b => a ≤ b) :=
    List.pairwise_map.mpr hsorted
  have hlt : ((sortByIndex l).map (fun r => r.Index)).Pairwise (fun a b => a < b) :=
    (hle.and hnd2).imp (fun h => Nat.lt_of_le_of_ne h.1 h.2)
  exact hlt.sublist
    (List.Sublist.map (fun r : TTSResult => r.Index) (List.filter_sublist (sortByIndex l)))

/-- Claim C1 (confirmed): in both pipelines, whenever the merge returns an
output it is the byte concatenation of exactly the audio files of the
successful (error-free, validation-passing) results in strictly ascending
fragment index order; failed fragments are omitted with no substitute
content.  The hypotheses record the pipeline invariants: fragment indices
are pairwise distinct, a worker that reported an error leaves no
validation-passing file behind, and audio paths contain no newline. -/
theorem C1_merge_success_order (fs : GoFS) (codec : Str) (results : List TTSResult)
    (hnd : (results.map (fun r => r.Index)).Nodup)
    (herr : ∀ r ∈ results, r.isErr = true → unifiedValidateAudioFile (fs r.AudioFile) = false)
    (hnl : ∀ r ∈ results, ¬ '\n' ∈ r.AudioFile) :
    (∀ out, unifiedCollectAndMerge fs results = .ok out →
      out = ((((sortByIndex results).filter
          (fun r => !r.isErr && unifiedValidateAudioFile (fs r.AudioFile))).map
            (fun r => (fs r.AudioFile).getD [])).flatten) ∧
      ((((sortByIndex results).filter
          (fun r => !r.isErr && unifiedValidateAudioFile (fs r.AudioFile))).map
            (fun r => r.Index)).Pairwise (fun a b => a < b)) ∧
      (∀ r ∈ (sortByIndex results).filter
          (fun r => !r.isErr && unifiedValidateAudioFile (fs r.AudioFile)),
        r ∈ results ∧ r.isErr = false ∧ unifiedValidateAudioFile (fs r.AudioFile) = true)) ∧
    (∀ out, concurrentCollectAndMerge codec fs results = .ok out →
      out = ((((sortByIndex (results.filter (fun r => !r.isErr))).filter
          (fun r => concurrentValidateAudioFile codec (fs r.AudioFile))).map
            (fun r => (fs r.AudioFile).getD [])).flatten) ∧
      ((((sortByIndex (results.filter (fun r => !r.isErr))).filter
          (fun r => concurrentValidateAudioFile codec (fs r.AudioFile))).map
            (fun r => r.Index)).Pairwise (fun a b => a < b)) ∧
      (∀ r ∈ (sortByIndex (results.filter (fun r => !r.isErr))).filter
          (fun r => concurrentValidateAudioFile codec (fs r.AudioFile)),
        r ∈ results ∧ r.isErr = false ∧
          concurrentValidateAudioFile codec (fs r.AudioFile) = true)) := by
  constructor
  · intro out hout
    simp only [unifiedCollectAndMerge, unifiedMergeAudioFiles] at hout
    split_ifs at hout with h1 h2 h3
    · have hoeq := Except.ok.inj hout
      have hfm : ((sortByIndex results).map (fun r => r.AudioFile)).filter
            (fun f => unifiedValidateAudioFile (fs f)) =
          ((sortByIndex results).filter
            (fun r => unifiedValidateAudioFile (fs r.AudioFile))).map (fun r => r.AudioFile) := by
        rw [List.filter_map]
        rfl
      have hcong : (sortByIndex results).filter
            (fun r => unifiedValidateAudioFile (fs r.AudioFile)) =
          (sortByIndex results).filter
            (fun r => !r.isErr && unifiedValidateAudioFile (fs r.AudioFile)) := by
        apply List.filter_congr
        intro r hr
        have hrmem : r ∈ results := (List.perm_insertionSort _ results).subset hr
        cases he : r.isErr with
        | false => simp
        | true => simp [herr r hrmem he]
      refine ⟨?_, sortFilter_pairwise results _ hnd, ?_⟩
      · rw [← hoeq, hfm, hcong, List.map_map]
        rfl
      · intro r hr
        have h2m := List.mem_filter.mp hr
        have hrmem : r ∈ results := (List.perm_insertionSort _ results).subset h2m.1
        have hb := h2m.2
        simp at hb
        exact ⟨hrmem, hb.1, hb.2⟩
  · intro out hout
    simp only [concurrentCollectAndMerge, concurrentMergeAudioFiles] at hout
    by_cases hc0 : (results.filter (fun r => !r.isErr)).isEmpty
    · rw [if_pos hc0] at hout
      exact absurd hout (by simp)
    rw [if_neg hc0] at hout
    have hfm : ((sortByIndex (results.filter (fun r => !r.isErr))).map
          (fun r => r.AudioFile)).filter (fun f => concurrentValidateAudioFile codec (fs f)) =
        ((sortByIndex (results.filter (fun r => !r.isErr))).filter
          (fun r => concurrentValidateAudioFile codec (fs r.AudioFile))).map
            (fun r => r.AudioFile) := by
      rw [List.filter_map]
      rfl
    by_cases hv0 : (((sortByIndex (results.filter (fun r => !r.isErr))).map
        (fun r => r.AudioFile)).filter (fun f => concurrentValidateAudioFile codec (fs f))).isEmpty
    · rw [if_pos hv0] at hout
      exact absurd hout (by simp)
    rw [if_neg hv0] at hout
    have hmemres : ∀ r, r ∈ (sortByIndex (results.filter (fun r => !r.isErr))).filter
        (fun r => concurrentValidateAudioFile codec (fs r.AudioFile)) →
        r ∈ results ∧ r.isErr = false ∧
          concurrentValidateAudioFile codec (fs r.AudioFile) = true := by
      intro r hr
      have h2m := List.mem_filter.mp hr
      have hrc : r ∈ results.filter (fun r => !r.isErr) :=
        (List.perm_insertionSort _ _).subset h2m.1
      have h3m := List.mem_filter.mp hrc
      exact ⟨h3m.1, by simpa using h3m.2, h2m.2⟩
    have hnlv : ∀ p ∈ ((sortByIndex (results.filter (fun r => !r.isErr))).map
        (fun r => r.AudioFile)).filter (fun f => concurrentValidateAudioFile codec (fs f)),
        ¬ '\n' ∈ p := by
      intro p hp
      rw [hfm] at hp
      obtain ⟨r, hr, hpr⟩ := List.mem_map.mp hp
      rw [← hpr]
      exact hnl r (hmemres r hr).1
    rw [parseFileList_roundtrip _ hnlv] at hout
    rw [if_neg hv0] at hout
    have hsome : (((sortByIndex (results.filter (fun r => !r.isErr))).map
          (fun r => r.AudioFile)).filter
            (fun f => concurrentValidateAudioFile codec (fs f))).filter
          (fun f => (fs f).isSome) =
        ((sortByIndex (results.filter (fun r => !r.isErr))).map
          (fun r => r.AudioFile)).filter (fun f => concurrentValidateAudioFile codec (fs f)) := by
      rw [List.filter_eq_self]
      intro p hp
      rw [hfm] at hp
      obtain ⟨r, hr, hpr⟩ := List.mem_map.mp hp
      rw [← hpr]
      exact concurrentValidate_isSome codec _ (hmemres r hr).2.2
    rw [hsome] at hout
    have hoeq := Except.ok.inj hout
    have hndf : ((results.filter (fun r => !r.isErr)).map (fun r => r.Index)).Nodup :=
      hnd.sublist ((List.filter_sublist results).map _)
    refine ⟨?_, sortFilter_pairwise _ _ hndf, hmemres⟩
    rw [← hoeq, hfm, List.map_map]
    rfl

/-- A file system with two valid MP3 fragments (indices 0 and 2); the
fragment of index 1 failed, leaving an empty path. -/
def c1fs : GoFS := fun p =>
  if p == gS ("a0.mp3") then some (id3Bytes ++ List.replicate 1021 0)
  else if p == gS ("a2.mp3") then some (id3Bytes ++ List.replicate 1021 1)
  else none

/-- Collected results of the run on `c1fs`, in completion order. -/
def c1results : List TTSResult :=
  [⟨2, gS ("a2.mp3"), false⟩, ⟨0, gS ("a0.mp3"), false⟩, ⟨1, [], true⟩]

/-- The merged bytes of the run on `c1fs`: fragment 0 then fragment 2. -/
def c1out : Bytes :=
  (id3Bytes ++ List.replicate 1021 0) ++ ((id3Bytes ++ List.replicate 1021 1) ++ [])

/-- Claim C1, witness: the unified clause discharged on a three-result run
whose middle fragment failed. -/
theorem C1_merge_success_order_witness :
    c1out = ((((sortByIndex c1results).filter
        (fun r => !r.isErr && unifiedValidateAudioFile (c1fs r.AudioFile))).map
          (fun r => (c1fs r.AudioFile).getD [])).flatten) :=
  (((C1_merge_success_order c1fs (gS ("mp3")) c1results (by decide) (by decide) (by decide)).1
    c1out (by rfl))).1
